import Mathlib

/-!
Verification of the jaeger-mongodb storage plugin's span codec, query
translation, trace assembly and dependency-graph derivation.

The embedding follows the Go sources:
* the writer (`WriteSpan`, `convertProcess`, `convertReferences`,
  `convertRefType`, `convertKeyValues`, `convertKeyValue`) that maps a domain
  span to the persisted document;
* the reader (`GetTrace`, `GetServices`, `GetOperations`, `FindTraces`,
  `FindTraceIDs`, `GetDependencies`, `fetchTracesById`, `findTraceIDs`,
  `convertRefs`, `convertKeyValues`, `convertKeyValue`, `convertLogs`).

Machine integers are embedded as `Nat`/`Int` with explicit `% 2^64`
wrap-arounds where the Go code converts between `int64` and `uint64`.
Identifier strings are modelled down to the character level, since the
reader re-parses the stored hexadecimal trace and span identifiers via
`strconv.ParseUint`, and decode failures of malformed identifiers are part
of the specified behaviour.

Deliberate modelling boundaries (documented where used):
* IEEE-754 `float64` tag values are not interpreted; only the accept/reject
  behaviour of the stored string is modelled (Go `strconv.ParseFloat`
  syntax, without the hexadecimal-float forms).  The numeric payload of a
  float tag is therefore represented opaquely by its serialized string.
* Go map iteration order is unspecified; the embedding determinises it to
  insertion order and all theorems about map-shaped results are stated so
  that they only depend on set-level content or on facts preserved by the
  determinisation.
-/

namespace JaegerMongo

/-! ### Digit-level codecs

`fmt.Sprintf("%x", n)` / `strconv.FormatInt` produce most-significant-first
digit strings; `strconv.ParseUint` / `strconv.ParseInt` parse them back.
We model both over `Nat.digits`. -/

/-- The character Go uses for digit value `d` (decimal digits, then
lowercase letters), as produced by `fmt %x` and `strconv.FormatInt`. -/
def digitChar (d : Nat) : Char :=
  if d < 10 then Char.ofNat (48 + d) else Char.ofNat (87 + d)

/-- Value of a hexadecimal digit character accepted by
`strconv.ParseUint(s, 16, 64)` (both letter cases). -/
def hexDigitVal (c : Char) : Option Nat :=
  if 48 ≤ c.toNat ∧ c.toNat ≤ 57 then some (c.toNat - 48)
  else if 97 ≤ c.toNat ∧ c.toNat ≤ 102 then some (c.toNat - 87)
  else if 65 ≤ c.toNat ∧ c.toNat ≤ 70 then some (c.toNat - 55)
  else none

/-- Value of a decimal digit character accepted by
`strconv.ParseInt(s, 10, 64)`. -/
def decDigitVal (c : Char) : Option Nat :=
  if 48 ≤ c.toNat ∧ c.toNat ≤ 57 then some (c.toNat - 48) else none

/-- Accumulating digit parser: the core loop of `strconv.ParseUint`
(most-significant digit first). -/
def parseDigitsCore (dv : Char → Option Nat) (b : Nat) :
    List Char → Nat → Option Nat
  | [], acc => some acc
  | c :: cs, acc =>
    match dv c with
    | some d => parseDigitsCore dv b cs (acc * b + d)
    | none => none

/-- Little-endian digit list of `n` in base `b`, computed with structural
fuel so that it evaluates by kernel reduction (unlike `Nat.digits`, which
is defined by well-founded recursion).  `natDigits_eq_digits` bridges to
`Nat.digits` for proofs. -/
def toDigitsRevAux (b : Nat) : Nat → Nat → List Nat
  | 0, _ => []
  | fuel + 1, n => if n = 0 then [] else n % b :: toDigitsRevAux b fuel (n / b)

def natDigits (b n : Nat) : List Nat := toDigitsRevAux b n n

/-- Digit string of `n` in base `b`, most significant digit first, `"0"` for
zero — the output shape of `fmt %x` (base 16) and `strconv.FormatInt`
(base 10) for non-negative values. -/
def natToDigitString (b n : Nat) : List Char :=
  match (natDigits b n).reverse.map digitChar with
  | [] => ['0']
  | c :: cs => c :: cs

/-! ### Identifier codecs

The domain model (jaeger `model.TraceID` / `model.SpanID`) prints
identifiers with `fmt %x` / `%x%016x` and parses them back with
`strconv.ParseUint(s, 16, 64)` plus length guards.  The reader re-parses
the stored strings, so we embed the string form faithfully. -/

/-- `strconv.ParseUint(s, 16, 64)`: non-empty, all hex digits, value below
`2^64` (overflow is a range error in Go). -/
def parseUintHex64 (cs : List Char) : Option Nat :=
  if cs.isEmpty then none
  else
    match parseDigitsCore hexDigitVal 16 cs 0 with
    | some v => if v < 2 ^ 64 then some v else none
    | none => none

/-- Domain trace identifier: a 128-bit value split into two 64-bit halves
(jaeger `model.TraceID`). -/
structure MTraceID where
  high : Nat
  low : Nat
deriving DecidableEq, Repr

/-- `model.TraceID.String()`: `%x` of the low half when the high half is
zero, otherwise `%x` of the high half followed by the low half zero-padded
to 16 hex digits (`%016x`). -/
def traceIDChars (t : MTraceID) : List Char :=
  if t.high = 0 then natToDigitString 16 t.low
  else
    natToDigitString 16 t.high ++
      (List.replicate (16 - (natToDigitString 16 t.low).length) '0' ++
        natToDigitString 16 t.low)

def traceIDToString (t : MTraceID) : String := ⟨traceIDChars t⟩

/-- `model.TraceIDFromString`: reject strings longer than 32 hex chars;
split off the low 16 chars when longer than 16; parse halves with
`ParseUint(·, 16, 64)`. -/
def traceIDFromChars (cs : List Char) : Option MTraceID :=
  if 32 < cs.length then none
  else if 16 < cs.length then
    match parseUintHex64 (cs.take (cs.length - 16)),
        parseUintHex64 (cs.drop (cs.length - 16)) with
    | some hi, some lo => some ⟨hi, lo⟩
    | _, _ => none
  else
    match parseUintHex64 cs with
    | some lo => some ⟨0, lo⟩
    | none => none

def traceIDFromString (s : String) : Option MTraceID := traceIDFromChars s.data

/-- `model.SpanID.String()` is plain `%x`. -/
def spanIDToString (n : Nat) : String := ⟨natToDigitString 16 n⟩

/-- `model.SpanIDFromString`: at most 16 hex chars, then
`ParseUint(·, 16, 64)`. -/
def spanIDFromChars (cs : List Char) : Option Nat :=
  if 16 < cs.length then none else parseUintHex64 cs

def spanIDFromString (s : String) : Option Nat := spanIDFromChars s.data

/-! ### Tag-value codecs

The writer serializes tag values with jaeger `model.KeyValue.AsString`
(`strconv.FormatInt` for int64, `"true"/"false"` for bool, the string
itself for string).  The reader parses them back with `strconv.ParseBool`
/ `ParseInt` / `ParseFloat` according to the stored type tag. -/

/-- `strconv.FormatInt(i, 10)`. -/
def formatInt64 (i : Int) : List Char :=
  if i < 0 then '-' :: natToDigitString 10 (-i).toNat
  else natToDigitString 10 i.toNat

/-- Parse the sign-stripped body of a decimal int64 literal
(`negSign` records whether a leading minus was seen). -/
def parseInt64Body (negSign : Bool) (body : List Char) : Option Int :=
  if body = [] then none
  else
    match parseDigitsCore decDigitVal 10 body 0 with
    | none => none
    | some v =>
      if negSign then (if v ≤ 2 ^ 63 then some (-(v : Int)) else none)
      else (if v < 2 ^ 63 then some ((v : Int)) else none)

/-- `strconv.ParseInt(s, 10, 64)`: optional sign, decimal digits, signed
64-bit range check (`-2^63 ≤ v ≤ 2^63-1`). -/
def parseInt64 : List Char → Option Int
  | [] => none
  | c :: rest =>
    parseInt64Body (decide (c = '-'))
      (if c = '-' ∨ c = '+' then rest else c :: rest)

/-- `strconv.FormatBool` (via `AsString`'s `"true"/"false"`). -/
def formatBool (b : Bool) : String := if b then "true" else "false"

/-- `strconv.ParseBool`: the exact accepted forms. -/
def parseBool (s : String) : Option Bool :=
  if s = "1" ∨ s = "t" ∨ s = "T" ∨ s = "TRUE" ∨ s = "true" ∨ s = "True"
  then some true
  else if s = "0" ∨ s = "f" ∨ s = "F" ∨ s = "FALSE" ∨ s = "false" ∨ s = "False"
  then some false
  else none

def isDecDigit (c : Char) : Bool := decide (48 ≤ c.toNat ∧ c.toNat ≤ 57)

def asciiLower (c : Char) : Char :=
  if 65 ≤ c.toNat ∧ c.toNat ≤ 90 then Char.ofNat (c.toNat + 32) else c

/-- Optional exponent of a Go float literal: empty, or `(e|E)(+|-)?digits`. -/
def floatExpOk : List Char → Bool
  | [] => true
  | c :: rest =>
    decide (c = 'e' ∨ c = 'E') &&
      (match rest with
       | [] => false
       | d :: rest2 =>
         if d = '+' ∨ d = '-' then !rest2.isEmpty && rest2.all isDecDigit
         else rest.all isDecDigit)

/-- Decimal mantissa with optional fraction, then optional exponent. -/
def floatMantissaExpOk (cs : List Char) : Bool :=
  let intPart := cs.takeWhile isDecDigit
  let rest := cs.dropWhile isDecDigit
  match rest with
  | '.' :: rest2 =>
    let frac := rest2.takeWhile isDecDigit
    let rest3 := rest2.dropWhile isDecDigit
    (!intPart.isEmpty || !frac.isEmpty) && floatExpOk rest3
  | _ => !intPart.isEmpty && floatExpOk rest

/-- Accept/reject behaviour of `strconv.ParseFloat(s, 64)` on the decimal
grammar: optional sign, then `inf`/`infinity` (case-insensitive; `nan` only
unsigned), or digits with optional fraction and exponent.  Hexadecimal
float forms and digit-separating underscores are not modelled; no claim
depends on which float strings are accepted. -/
def goFloatSyntax (cs : List Char) : Bool :=
  match cs with
  | [] => false
  | c :: rest =>
    let body := if c = '-' ∨ c = '+' then rest else c :: rest
    let lower := body.map asciiLower
    if lower = ['i', 'n', 'f'] ∨ lower = ['i', 'n', 'f', 'i', 'n', 'i', 't', 'y']
    then true
    else if lower = ['n', 'a', 'n'] then decide (c ≠ '-' ∧ c ≠ '+')
    else floatMantissaExpOk body

/-! ### Data model

`Span` is the persisted document (`model.go`); the `M`-prefixed types are
the relevant projection of the external jaeger domain model
(`model.Span` and friends).  Notes:
* a document tag value is `interface{}` after BSON decoding; we model the
  three relevant shapes: string, BSON null, and any non-string value;
* the domain `model.Span.Flags` field is touched by neither the writer nor
  the reader and is omitted; `model.Span.ProcessID` is written into the
  document but never restored by the reader (the decoded span leaves it at
  the Go zero value `""`);
* a float64 domain tag value is represented opaquely by its serialized
  string (see the file header). -/

inductive BsonVal where
  | null : BsonVal
  | str : String → BsonVal
  | nonString : BsonVal
deriving DecidableEq, Repr

structure DocKeyValue where
  key : String
  vtype : String
  value : BsonVal
deriving DecidableEq, Repr

structure DocReference where
  refType : String
  traceID : String
  spanID : String
deriving DecidableEq, Repr

structure DocProcess where
  serviceName : String
  tags : List DocKeyValue
deriving DecidableEq, Repr

structure DocLog where
  timestamp : Nat
  fields : List DocKeyValue
deriving DecidableEq, Repr

/-- The persisted span document (`Span` in `model.go`).  `startTime` is an
absolute timestamp, `duration` is int64 microseconds. -/
structure SpanDoc where
  traceID : String
  spanID : String
  operationName : String
  startTime : Int
  duration : Int
  references : List DocReference
  processID : String
  process : DocProcess
  tags : List DocKeyValue
  logs : List DocLog
  warnings : List String
deriving DecidableEq, Repr

/-- Domain tag value (`model.KeyValue`, collapsed to the value actually
selected by its `VType`). -/
inductive MTagValue where
  | vStr : String → MTagValue
  | vBool : Bool → MTagValue
  | vInt64 : Int → MTagValue
  | vFloat64 : String → MTagValue
  | vBinary : List Nat → MTagValue
deriving DecidableEq, Repr

structure MKeyValue where
  key : String
  value : MTagValue
deriving DecidableEq, Repr

structure MProcess where
  serviceName : String
  tags : List MKeyValue
deriving DecidableEq, Repr

structure MLog where
  timestamp : Int
  fields : List MKeyValue
deriving DecidableEq, Repr

/-- Domain span reference.  The reference kind is the raw protobuf enum
value (`model.ChildOf = 0`, `model.FollowsFrom = 1`); Go does not prevent
other integer values, which matters for `convertRefType`. -/
structure MSpanRef where
  refType : Int
  traceID : MTraceID
  spanID : Nat
deriving DecidableEq, Repr

/-- Domain span (`model.Span`, see the notes above).  `startTime` is an
absolute timestamp and `duration` is int64 nanoseconds (Go
`time.Duration`). -/
structure MSpan where
  traceID : MTraceID
  spanID : Nat
  operationName : String
  references : List MSpanRef
  startTime : Int
  duration : Int
  tags : List MKeyValue
  logs : List MLog
  process : MProcess
  processID : String
  warnings : List String
deriving DecidableEq, Repr

/-! ### Writer: `WriteSpan` document construction (writer.go) -/

/-- `convertRefType`: `FollowsFrom` maps to `FOLLOWS_FROM`; every other
value — `ChildOf` and any unrecognized kind alike — maps to `CHILD_OF`. -/
def convertRefTypeW (refType : Int) : String :=
  if refType = 1 then "FOLLOWS_FROM" else "CHILD_OF"

/-- `convertReferences` (writer side). -/
def convertReferencesW (refs : List MSpanRef) : List DocReference :=
  refs.map fun r =>
    ⟨convertRefTypeW r.refType, traceIDToString r.traceID, spanIDToString r.spanID⟩

/-- `strings.ToLower(kv.VType.String())`. -/
def valueTypeName : MTagValue → String
  | .vStr _ => "string"
  | .vBool _ => "bool"
  | .vInt64 _ => "int64"
  | .vFloat64 _ => "float64"
  | .vBinary _ => "binary"

/-- `model.KeyValue.AsString`.  The float64 case is the opaque serialized
form (see the file header); the binary case is never reached because
`convertKeyValues` filters binary tags out first. -/
def tagAsString : MTagValue → String
  | .vStr s => s
  | .vBool b => formatBool b
  | .vInt64 i => ⟨formatInt64 i⟩
  | .vFloat64 r => r
  | .vBinary _ => ""

def isBinary : MTagValue → Bool
  | .vBinary _ => true
  | _ => false

/-- `convertKeyValue` (writer side). -/
def convertKeyValueW (kv : MKeyValue) : DocKeyValue :=
  ⟨kv.key, valueTypeName kv.value, .str (tagAsString kv.value)⟩

/-- `convertKeyValues` (writer side): skips tags whose `VType` is
`BinaryType`, converts the rest. -/
def convertKeyValuesW (kvs : List MKeyValue) : List DocKeyValue :=
  (kvs.filter (fun kv => !isBinary kv.value)).map convertKeyValueW

def convertProcessW (p : MProcess) : DocProcess :=
  ⟨p.serviceName, convertKeyValuesW p.tags⟩

/-- The document `WriteSpan` builds and inserts.  `Duration` is stored as
`span.Duration.Microseconds()` (truncating int64 division by 1000) and the
`Logs` field is left at its zero value (the assignment is commented out in
the source), so logs are never persisted. -/
def writeSpanDoc (s : MSpan) : SpanDoc :=
  { traceID := traceIDToString s.traceID
    spanID := spanIDToString s.spanID
    operationName := s.operationName
    startTime := s.startTime
    duration := Int.tdiv s.duration 1000
    references := convertReferencesW s.references
    processID := s.processID
    process := convertProcessW s.process
    tags := convertKeyValuesW s.tags
    logs := []
    warnings := s.warnings }

/-! ### Reader: document decoding (the body of `fetchTracesById`) -/

/-- Go `uint64(i)` for an `int64` value. -/
def toUint64 (i : Int) : Nat := (i % ((2 : Int) ^ 64)).toNat

/-- Go `int64(n)` (two's-complement reinterpretation of `n % 2^64`). -/
def toInt64 (n : Nat) : Int :=
  if n % 2 ^ 64 < 2 ^ 63 then ((n % 2 ^ 64 : Nat) : Int)
  else ((n % 2 ^ 64 : Nat) : Int) - 2 ^ 64

/-- `model.MicrosecondsAsDuration(v) = time.Duration(v) * time.Microsecond`
(int64 arithmetic, wrapping). -/
def microsecondsAsDuration (v : Nat) : Int := toInt64 (v * 1000)

/-- The reference-kind switch in the reader's `convertRefs`: only the two
recognized strings decode; anything else is an error. -/
def refTypeR (s : String) : Option Int :=
  if s = "CHILD_OF" then some 0
  else if s = "FOLLOWS_FROM" then some 1
  else none

def convertRefR (r : DocReference) : Option MSpanRef :=
  (refTypeR r.refType).bind fun rt =>
    (traceIDFromString r.traceID).bind fun t =>
      (spanIDFromString r.spanID).map fun sid => ⟨rt, t, sid⟩

/-- `convertRefs` (reader side): any element failing fails the whole list. -/
def convertRefsR : List DocReference → Option (List MSpanRef)
  | [] => some []
  | r :: rs =>
    (convertRefR r).bind fun mr => (convertRefsR rs).map fun rest => mr :: rest

/-- `convertKeyValue` (reader side): nil and non-string stored values are
errors; otherwise the string is parsed according to the declared type, and
an unrecognized declared type is an error. -/
def convertKeyValueR (tag : DocKeyValue) : Option MKeyValue :=
  match tag.value with
  | .null => none
  | .nonString => none
  | .str tagValue =>
    if tag.vtype = "string" then some ⟨tag.key, .vStr tagValue⟩
    else if tag.vtype = "bool" then
      (parseBool tagValue).map fun b => ⟨tag.key, .vBool b⟩
    else if tag.vtype = "int64" then
      (parseInt64 tagValue.data).map fun i => ⟨tag.key, .vInt64 i⟩
    else if tag.vtype = "float64" then
      (if goFloatSyntax tagValue.data then some ⟨tag.key, .vFloat64 tagValue⟩
       else none)
    else none

def convertKeyValuesR : List DocKeyValue → Option (List MKeyValue)
  | [] => some []
  | t :: ts =>
    (convertKeyValueR t).bind fun kv =>
      (convertKeyValuesR ts).map fun rest => kv :: rest

/-- `convertLogs` (reader side): `time.UnixMilli(int64(log.Timestamp))`,
fields decoded with the same tag decoder. -/
def convertLogsR : List DocLog → Option (List MLog)
  | [] => some []
  | l :: ls =>
    (convertKeyValuesR l.fields).bind fun fs =>
      (convertLogsR ls).map fun rest =>
        (⟨toInt64 l.timestamp * 1000000, fs⟩ : MLog) :: rest

/-- The decoding performed for each document inside `fetchTracesById`:
identifier parses, reference conversion, tag conversion (span and process),
log conversion; any failure fails the document.  `ProcessID` is not
restored (stays at the Go zero value). -/
def decodeSpanDoc (d : SpanDoc) : Option MSpan :=
  (traceIDFromString d.traceID).bind fun tId =>
    (spanIDFromString d.spanID).bind fun sId =>
      (convertRefsR d.references).bind fun refs =>
        (convertKeyValuesR d.tags).bind fun tags =>
          (convertKeyValuesR d.process.tags).bind fun pTags =>
            (convertLogsR d.logs).map fun logs =>
              { traceID := tId
                spanID := sId
                operationName := d.operationName
                references := refs
                startTime := d.startTime
                duration := microsecondsAsDuration (toUint64 d.duration)
                tags := tags
                logs := logs
                process := ⟨d.process.serviceName, pTags⟩
                processID := ""
                warnings := d.warnings }

/-! ### Well-formed domain spans and the round trip -/

/-- Well-formed tag values: int64 values in signed 64-bit range; float64
tags are outside the modelled round-trip scope (their Go serialization via
`strconv.FormatFloat(v, 'g', 10, 64)` is IEEE-754 behaviour that this
embedding does not interpret). -/
def wfValue : MTagValue → Bool
  | .vStr _ => true
  | .vBool _ => true
  | .vInt64 i => decide (-(2 ^ 63) ≤ i ∧ i < 2 ^ 63)
  | .vFloat64 _ => false
  | .vBinary _ => true

/-- Well-formed reference: a recognized kind and 64-bit identifiers. -/
def wfRef (r : MSpanRef) : Bool :=
  decide ((r.refType = 0 ∨ r.refType = 1) ∧
    r.traceID.high < 2 ^ 64 ∧ r.traceID.low < 2 ^ 64 ∧ r.spanID < 2 ^ 64)

/-- Well-formed domain span: 64-bit identifiers, non-negative int64
duration, recognized reference kinds, well-formed tag values. -/
def wfSpan (s : MSpan) : Bool :=
  decide (s.traceID.high < 2 ^ 64 ∧ s.traceID.low < 2 ^ 64 ∧
    s.spanID < 2 ^ 64 ∧ 0 ≤ s.duration ∧ s.duration < 2 ^ 63) &&
  s.references.all wfRef &&
  s.tags.all (fun kv => wfValue kv.value) &&
  s.process.tags.all (fun kv => wfValue kv.value)

/-- The span reconstructed from `writeSpanDoc s`: logs are absent (never
persisted), binary tags are dropped from both tag sets, the duration is
truncated to whole microseconds, and `ProcessID` is not restored. -/
def roundTripSpan (s : MSpan) : MSpan :=
  { s with
    duration := Int.tdiv s.duration 1000 * 1000
    tags := s.tags.filter (fun kv => !isBinary kv.value)
    logs := []
    process := ⟨s.process.serviceName,
      s.process.tags.filter (fun kv => !isBinary kv.value)⟩
    processID := "" }

/-- Concrete well-formed span witnessing the failure of the unamended
round-trip claim: it carries one log entry (dropped by the writer) and a
duration of 1500 nanoseconds (truncated to 1 microsecond = 1000
nanoseconds in the document). -/
def c1Span : MSpan :=
  { traceID := ⟨0, 1⟩
    spanID := 2
    operationName := "op"
    references := []
    startTime := 0
    duration := 1500
    tags := []
    logs := [⟨0, []⟩]
    process := ⟨"svc", []⟩
    processID := ""
    warnings := [] }

/-! ### Query translation and the reader (reader.go)

The store seam (`ReaderStorage`) is modelled as
`Except String (List SpanDoc)`: either the collection's documents or a
failing store call.  `Find` with a filter is evaluated over the document
list; the sort option `{startTime: -1}` is an insertion sort (Mongo's
order among equal keys is unspecified; the embedding determinises it, and
every theorem depending on order is stated against this same sort). -/

/-- `spanstore.TraceQueryParameters` (durations in nanoseconds, as Go
`time.Duration`; the tag map as an association list). -/
structure TraceQueryParameters where
  serviceName : String
  operationName : String
  tags : List (String × String)
  startTimeMin : Int
  startTimeMax : Int
  durationMin : Int
  durationMax : Int
  numTraces : Int
deriving DecidableEq, Repr

structure DurationFilter where
  lte : Option Int
  gte : Option Int
deriving DecidableEq, Repr

/-- The filter document built by `findTraceIDs`. -/
structure TraceFilter where
  startMin : Int
  startMax : Int
  tagFilters : List (String × String)
  serviceName : Option String
  operationName : Option String
  duration : Option DurationFilter
deriving DecidableEq, Repr

/-- The three sequential writes to `filter["duration"]` in `findTraceIDs`:
max-only sets `$lte`, min-only overwrites with `$gte`, and when both are
non-zero the final write holds both bounds. -/
def buildDurationFilter (q : TraceQueryParameters) : Option DurationFilter :=
  let f : Option DurationFilter := none
  let f := if q.durationMax ≠ 0 then
    some ⟨some (Int.tdiv q.durationMax 1000), none⟩ else f
  let f := if q.durationMin ≠ 0 then
    some ⟨none, some (Int.tdiv q.durationMin 1000)⟩ else f
  if q.durationMax ≠ 0 ∧ q.durationMin ≠ 0 then
    some ⟨some (Int.tdiv q.durationMax 1000), some (Int.tdiv q.durationMin 1000)⟩
  else f

/-- The filter constructed by `findTraceIDs`: strict start-time window,
`$and` of tag `$elemMatch` predicates, optional exact service/operation
match, optional duration range. -/
def buildTraceIDFilter (q : TraceQueryParameters) : TraceFilter :=
  { startMin := q.startTimeMin
    startMax := q.startTimeMax
    tagFilters := q.tags
    serviceName := if q.serviceName ≠ "" then some q.serviceName else none
    operationName := if q.operationName ≠ "" then some q.operationName else none
    duration := buildDurationFilter q }

/-- Mongo `$elemMatch` on the tags array: some tag of this document has the
requested key and (string) value. -/
def tagElemMatch (d : SpanDoc) (k v : String) : Bool :=
  d.tags.any fun t => decide (t.key = k ∧ t.value = BsonVal.str v)

def durationHolds (df : Option DurationFilter) (dur : Int) : Bool :=
  match df with
  | none => true
  | some f =>
    (match f.lte with | none => true | some m => decide (dur ≤ m)) &&
    (match f.gte with | none => true | some m => decide (m ≤ dur))

/-- Mongo evaluation of the filter built by `findTraceIDs` on one span
document. -/
def matchesFilter (f : TraceFilter) (d : SpanDoc) : Bool :=
  decide (f.startMin < d.startTime) && decide (d.startTime < f.startMax) &&
  f.tagFilters.all (fun kv => tagElemMatch d kv.1 kv.2) &&
  (match f.serviceName with
   | none => true
   | some sn => decide (d.process.serviceName = sn)) &&
  (match f.operationName with
   | none => true
   | some op => decide (d.operationName = op)) &&
  durationHolds f.duration d.duration

abbrev StoreResult := Except String (List SpanDoc)

/-- Insertion step of the descending start-time sort. -/
def insertByStartTime (d : SpanDoc) : List SpanDoc → List SpanDoc
  | [] => [d]
  | e :: es =>
    if d.startTime ≤ e.startTime then e :: insertByStartTime d es
    else d :: e :: es

/-- The `Sort: {startTime: -1}` option of the `findTraceIDs` fetch. -/
def sortByStartTimeDesc (docs : List SpanDoc) : List SpanDoc :=
  docs.foldr insertByStartTime []

def insertIfNew (seen : List String) (x : String) : List String :=
  if x ∈ seen then seen else seen ++ [x]

/-- The cursor loop of `findTraceIDs`: insert each document's trace id into
the dedup set, then break once the set size has reached `NumTraces`
(insertion happens before the size check). -/
def collectIds (limit : Int) : List SpanDoc → List String → List String
  | [], seen => seen
  | d :: ds, seen =>
    let seen2 := insertIfNew seen d.traceID
    if limit ≤ (seen2.length : Int) then seen2
    else collectIds limit ds seen2

/-- `findTraceIDs`: build the filter, fetch sorted by descending start
time, dedup trace ids up to the limit.  A store failure is wrapped and
returned.  (A per-document cursor-decode failure calls `log.Fatal` in Go,
killing the process; documents are already structured in this embedding.) -/
def findTraceIDs (st : StoreResult) (q : TraceQueryParameters) :
    Except String (List String) :=
  match st with
  | .error e => .error ("error getting traceIDs: " ++ e)
  | .ok docs =>
    .ok (collectIds q.numTraces
      (sortByStartTimeDesc
        (docs.filter (matchesFilter (buildTraceIDFilter q)))) [])

/-- Append a decoded span to its trace's span list (`tracesMap` update,
determinised to insertion order). -/
def appendSpan (m : List (String × List MSpan)) (tid : String) (s : MSpan) :
    List (String × List MSpan) :=
  if m.any (fun e => decide (e.1 = tid)) then
    m.map (fun e => if e.1 = tid then (e.1, e.2 ++ [s]) else e)
  else m ++ [(tid, [s])]

/-- The cursor loop of `fetchTracesById`: decode each document, failing the
whole operation on the first decode failure, otherwise grouping by the
document's raw trace-id string in arrival order. -/
def fetchLoop : List SpanDoc → List (String × List MSpan) →
    Except String (List (String × List MSpan))
  | [], acc => .ok acc
  | d :: ds, acc =>
    match decodeSpanDoc d with
    | none => .error "error decoding span"
    | some s => fetchLoop ds (appendSpan acc d.traceID s)

/-- `fetchTracesById`: fetch the documents whose `traceID` is in `ids`
(filter `{traceID: {$in: ids}}`, no sort option — arrival order), decode
and group them. -/
def fetchTracesById (st : StoreResult) (ids : List String) :
    Except String (List (String × List MSpan)) :=
  match st with
  | .error e => .error ("error finding spans " ++ e)
  | .ok docs => fetchLoop (docs.filter (fun d => decide (d.traceID ∈ ids))) []

/-- `FindTraces`: find the matching trace ids, return `(nil, nil)` when
none match, otherwise fetch and return the grouped traces. -/
def findTraces (st : StoreResult) (q : TraceQueryParameters) :
    Except String (List (List MSpan)) :=
  match findTraceIDs st q with
  | .error e => .error e
  | .ok ids =>
    if ids.isEmpty then .ok []
    else
      match fetchTracesById st ids with
      | .error e => .error e
      | .ok m => .ok (m.map (fun e => e.2))

def errTraceNotFound : String := "trace not found"

/-- `GetTrace`: fetch by the single id; the first entry of the resulting
map if any, otherwise `ErrTraceNotFound`. -/
def getTrace (st : StoreResult) (tid : MTraceID) :
    Except String (List MSpan) :=
  match fetchTracesById st [traceIDToString tid] with
  | .error e => .error e
  | .ok [] => .error errTraceNotFound
  | .ok (e :: _) => .ok e.2

/-- `Distinct` determinised to first-occurrence order. -/
def dedupF (l : List String) : List String := l.foldl insertIfNew []

/-- `GetServices`: distinct over `process.serviceName`; a store failure is
wrapped and returned. -/
def getServices (st : StoreResult) : Except String (List String) :=
  match st with
  | .error e => .error ("distinct call failed: " ++ e)
  | .ok docs => .ok (dedupF (docs.map (fun d => d.process.serviceName)))

/-- `GetOperations`: distinct over `operationName`, optionally filtered by
service name; each operation is paired with the placeholder span kind
`"TODO"`. -/
def getOperations (st : StoreResult) (serviceName : String) :
    Except String (List (String × String)) :=
  match st with
  | .error e => .error ("distinct call failed: " ++ e)
  | .ok docs =>
    let filtered := if serviceName ≠ "" then
      docs.filter (fun d => decide (d.process.serviceName = serviceName))
    else docs
    .ok ((dedupF (filtered.map (fun d => d.operationName))).map
      (fun op => (op, "TODO")))

/-! ### `GetDependencies` -/

def maxTracesForDependencies : Int := 25000

/-- The query `GetDependencies` issues to `FindTraces`. -/
def depQuery (endTs lookback : Int) : TraceQueryParameters :=
  { serviceName := ""
    operationName := ""
    tags := []
    startTimeMin := endTs - lookback
    startTimeMax := endTs
    durationMin := 0
    durationMax := 0
    numTraces := maxTracesForDependencies }

structure MDependencyLink where
  parent : String
  child : String
  callCount : Nat
deriving DecidableEq, Repr

def svcMapInsert (m : List (Nat × String)) (k : Nat) (v : String) :
    List (Nat × String) :=
  if m.any (fun e => decide (e.1 = k)) then
    m.map (fun e => if e.1 = k then (e.1, v) else e)
  else m ++ [(k, v)]

/-- First pass: `serviceNameBySpanID` over every span of every trace. -/
def buildSvcMap (traces : List (List MSpan)) : List (Nat × String) :=
  traces.foldl (fun m tr =>
    tr.foldl (fun m2 s => svcMapInsert m2 s.spanID s.process.serviceName) m) []

/-- Go map lookup with the string zero value `""` for a missing key. -/
def lookupSvc (m : List (Nat × String)) (k : Nat) : String :=
  match m.find? (fun e => decide (e.1 = k)) with
  | some e => e.2
  | none => ""

/-- Second pass, flattened: the `(parent, child)` service pairs observed,
in processing order — one for each reference of kind child-of whose target
span id maps to a non-empty service name. -/
def childOfObservations (svcMap : List (Nat × String))
    (traces : List (List MSpan)) : List (String × String) :=
  traces.flatMap fun tr =>
    tr.flatMap fun s =>
      s.references.filterMap fun r =>
        if r.refType = 0 ∧ lookupSvc svcMap r.spanID ≠ "" then
          some (lookupSvc svcMap r.spanID, s.process.serviceName)
        else none

/-- One edge-map update: the map is keyed by the string concatenation
`parent + child`; an existing entry keeps its parent/child and increments
its call count, a new entry starts at call count 1. -/
def edgeInsert (m : List (String × MDependencyLink)) (o : String × String) :
    List (String × MDependencyLink) :=
  let key := o.1 ++ o.2
  if m.any (fun e => decide (e.1 = key)) then
    m.map (fun e => if e.1 = key then
      (e.1, ⟨e.2.parent, e.2.child, e.2.callCount + 1⟩) else e)
  else m ++ [(key, ⟨o.1, o.2, 1⟩)]

def buildEdges (obs : List (String × String)) :
    List (String × MDependencyLink) :=
  obs.foldl edgeInsert []

/-- The traces `GetDependencies` works from: on a `FindTraces` failure the
error is only logged (`zap.S().Error(err)`) — not returned — and execution
continues with the nil trace slice. -/
def tracesForDependencies (st : StoreResult) (endTs lookback : Int) :
    List (List MSpan) :=
  match findTraces st (depQuery endTs lookback) with
  | .error _ => []
  | .ok ts => ts

/-- `GetDependencies`: window query (capped at 25000 traces), span-id to
service map, child-of edge accumulation keyed by `parent + child`, and a
final pass dropping self-loop edges.  Always returns `.ok`. -/
def getDependencies (st : StoreResult) (endTs lookback : Int) :
    Except String (List MDependencyLink) :=
  let traces := tracesForDependencies st endTs lookback
  let svcMap := buildSvcMap traces
  let obs := childOfObservations svcMap traces
  .ok ((buildEdges obs).filterMap fun e =>
    if e.2.parent ≠ e.2.child then some e.2 else none)

/-- The documents of the store matching the filter `findTraceIDs` builds. -/
def matchingDocs (store : List SpanDoc) (q : TraceQueryParameters) :
    List SpanDoc :=
  store.filter (matchesFilter (buildTraceIDFilter q))

/-- The distinct trace ids of the matching documents in descending
start-time fetch order (first occurrence kept). -/
def distinctMatchingIds (store : List SpanDoc) (q : TraceQueryParameters) :
    List String :=
  dedupF ((sortByStartTimeDesc (matchingDocs store q)).map (fun d => d.traceID))

/-- The number of distinct trace ids among the matching documents. -/
def distinctIdCount (store : List SpanDoc) (q : TraceQueryParameters) : Nat :=
  (dedupF ((matchingDocs store q).map (fun d => d.traceID))).length

/-- A minimal span document used by the query-layer fixtures. -/
def c5Doc : SpanDoc :=
  { traceID := "1", spanID := "2", operationName := "op", startTime := 0,
    duration := 0, references := [], processID := "", process := ⟨"svc", []⟩,
    tags := [], logs := [], warnings := [] }

/-- A query with result-count limit 0 whose window matches `c5Doc`. -/
def c5Query : TraceQueryParameters := ⟨"", "", [], -1, 10, 0, 0, 0⟩

/-- The same query with limit 1. -/
def c5QueryW : TraceQueryParameters := ⟨"", "", [], -1, 10, 0, 0, 1⟩

/-- A query with both duration bounds non-zero (2µs min, 7µs max). -/
def c9Query : TraceQueryParameters := ⟨"", "", [], 0, 10, 2000, 7000, 1⟩

/-- A document carrying both requested tags. -/
def c6Doc : SpanDoc :=
  { traceID := "1", spanID := "2", operationName := "op", startTime := 0,
    duration := 0, references := [], processID := "",
    process := ⟨"svc", []⟩,
    tags := [⟨"k1", "string", .str "v1"⟩, ⟨"k2", "string", .str "v2"⟩],
    logs := [], warnings := [] }

/-- A query requesting both tag pairs. -/
def c6Query : TraceQueryParameters :=
  ⟨"", "", [("k1", "v1"), ("k2", "v2")], -1, 10, 0, 0, 5⟩

/-- Specification-shaped grouping (spec §4.3): for each distinct trace id
in arrival order, the decoded spans of that trace's documents, preserving
arrival order within the trace. -/
def groupSpec (docs : List SpanDoc) : List (String × List MSpan) :=
  (dedupF (docs.map (fun d => d.traceID))).map fun t =>
    (t, (docs.filter (fun d => decide (d.traceID = t))).filterMap decodeSpanDoc)

/-- One step of the success-path grouping fold. -/
def appendDecoded (m : List (String × List MSpan)) (d : SpanDoc) :
    List (String × List MSpan) :=
  match decodeSpanDoc d with
  | some s => appendSpan m d.traceID s
  | none => m

/-- Fixture for the C8 witness: two documents of the same trace and one of
another trace, all decodable. -/
def c8DocA : SpanDoc :=
  { traceID := "1", spanID := "a", operationName := "op1", startTime := 0,
    duration := 0, references := [], processID := "", process := ⟨"s1", []⟩,
    tags := [], logs := [], warnings := [] }

def c8DocB : SpanDoc :=
  { traceID := "2", spanID := "b", operationName := "op2", startTime := 1,
    duration := 0, references := [], processID := "", process := ⟨"s2", []⟩,
    tags := [], logs := [], warnings := [] }

def c8DocC : SpanDoc :=
  { traceID := "1", spanID := "c", operationName := "op3", startTime := 2,
    duration := 0, references := [], processID := "", process := ⟨"s1", []⟩,
    tags := [], logs := [], warnings := [] }

/-- The child-of observations underlying a dependency result. -/
def obsOf (st : StoreResult) (endTs lookback : Int) :
    List (String × String) :=
  childOfObservations
    (buildSvcMap (tracesForDependencies st endTs lookback))
    (tracesForDependencies st endTs lookback)

/-- Span-document fixture for the dependency tests: one span of trace
`"1"` with an optional child-of reference. -/
def depDoc (sid svc : String) (st : Int) (refSid : Option String) : SpanDoc :=
  { traceID := "1", spanID := sid, operationName := "op", startTime := st,
    duration := 0,
    references := match refSid with
      | some r => [⟨"CHILD_OF", "1", r⟩]
      | none => [],
    processID := "", process := ⟨svc, []⟩, tags := [], logs := [],
    warnings := [] }

/-- Four spans with services "a", "bc", "ab", "c": one child-of reference
from the "bc" span to the "a" span and one from the "c" span to the "ab"
span. -/
def c4Store : List SpanDoc :=
  [depDoc "0" "a" 0 none, depDoc "1" "bc" 1 (some "0"),
   depDoc "2" "ab" 2 none, depDoc "3" "c" 3 (some "2")]

/-! ### The linear-chain scenario (C2) -/

/-- Stored document of span `i` of a linear chain: all spans share trace
`"1"`, span `i` (for `i ≥ 1`) carries a single child-of reference to span
`i - 1`, and span `i` belongs to service `svc i`. -/
def chainDoc (svc : Nat → String) (sid : Nat → Nat) (i : Nat) : SpanDoc :=
  { traceID := "1", spanID := spanIDToString (sid i), operationName := "op",
    startTime := (i : Int), duration := 0,
    references := if i = 0 then [] else
      [⟨"CHILD_OF", "1", spanIDToString (sid (i - 1))⟩],
    processID := "", process := ⟨svc i, []⟩, tags := [], logs := [],
    warnings := [] }

def chainStore (n : Nat) (svc : Nat → String) (sid : Nat → Nat) :
    List SpanDoc :=
  (List.range n).map (chainDoc svc sid)

/-- The domain span decoded back from `chainDoc svc sid i`. -/
def chainSpan (svc : Nat → String) (sid : Nat → Nat) (i : Nat) : MSpan :=
  { traceID := ⟨0, 1⟩, spanID := sid i, operationName := "op",
    references := if i = 0 then [] else [⟨0, ⟨0, 1⟩, sid (i - 1)⟩],
    startTime := (i : Int), duration := 0, tags := [], logs := [],
    process := ⟨svc i, []⟩, processID := "", warnings := [] }

/-- The four chain services of the C2 counterexample: pairwise distinct,
but `svc 0 ++ svc 1 = "abc" = svc 2 ++ svc 3`. -/
def c2svc (i : Nat) : String := ["a", "bc", "ab", "c"].getD i ""

/-- Chain services for the C2 witness: `"a"`, `"aa"`, `"aaa"` — non-empty,
pairwise distinct, with pairwise distinct consecutive concatenations. -/
def c2svcW (i : Nat) : String := ⟨List.replicate (i + 1) 'a'⟩

/-! ## Theorems -/

theorem toDigitsRevAux_eq_digits {b : Nat} (hb : 2 ≤ b) :
    ∀ fuel n, n ≤ fuel → toDigitsRevAux b fuel n = Nat.digits b n
  | 0, n, h => by
    have hn : n = 0 := by omega
    subst hn
    simp [toDigitsRevAux]
  | fuel + 1, n, h => by
    by_cases hn : n = 0
    · subst hn
      simp [toDigitsRevAux]
    · show (if n = 0 then [] else n % b :: toDigitsRevAux b fuel (n / b)) = _
      rw [if_neg hn]
      have hdiv : n / b ≤ fuel := by
        have := Nat.div_lt_self (Nat.pos_of_ne_zero hn) (by omega : 1 < b)
        omega
      rw [toDigitsRevAux_eq_digits hb fuel (n / b) hdiv]
      rw [Nat.digits_def' (by omega : 1 < b) (Nat.pos_of_ne_zero hn)]

theorem natDigits_eq_digits {b : Nat} (hb : 2 ≤ b) (n : Nat) :
    natDigits b n = Nat.digits b n :=
  toDigitsRevAux_eq_digits hb n n (Nat.le_refl n)

theorem hexDigitVal_digitChar {d : Nat} (h : d < 16) :
    hexDigitVal (digitChar d) = some d := by
  interval_cases d <;> rfl

theorem decDigitVal_digitChar {d : Nat} (h : d < 10) :
    decDigitVal (digitChar d) = some d := by
  interval_cases d <;> rfl

theorem digitChar_ne_sign {d : Nat} (h : d < 16) :
    digitChar d ≠ '-' ∧ digitChar d ≠ '+' := by
  interval_cases d <;> exact ⟨by decide, by decide⟩

theorem parseDigitsCore_map (dv : Char → Option Nat) (b : Nat)
    (hdv : ∀ d, d < b → dv (digitChar d) = some d) :
    ∀ (ds : List Nat) (acc : Nat), (∀ d ∈ ds, d < b) →
      parseDigitsCore dv b (ds.map digitChar) acc =
        some (ds.foldl (fun a d => a * b + d) acc)
  | [], acc, _ => rfl
  | d :: ds, acc, h => by
    have hd : d < b := h d (List.mem_cons_self d ds)
    simp only [List.map_cons, parseDigitsCore, hdv d hd]
    exact parseDigitsCore_map dv b hdv ds (acc * b + d)
      (fun x hx => h x (List.mem_cons_of_mem d hx))

theorem foldr_digits_eq_ofDigits (b : Nat) :
    ∀ l : List Nat, l.foldr (fun d a => a * b + d) 0 = Nat.ofDigits b l
  | [] => by simp [Nat.ofDigits]
  | d :: l => by
    simp only [List.foldr_cons, foldr_digits_eq_ofDigits b l, Nat.ofDigits_cons]
    ring

theorem foldl_reverse_digits (b n : Nat) :
    ((Nat.digits b n).reverse).foldl (fun a d => a * b + d) 0 = n := by
  rw [List.foldl_reverse]
  have := foldr_digits_eq_ofDigits b (Nat.digits b n)
  simpa [Nat.ofDigits_digits] using this

theorem natToDigitString_zero (b : Nat) : natToDigitString b 0 = ['0'] := rfl

theorem natToDigitString_eq_map {b n : Nat} (hb : 2 ≤ b) (hn : n ≠ 0) :
    natToDigitString b n = (Nat.digits b n).reverse.map digitChar := by
  have hne : Nat.digits b n ≠ [] := Nat.digits_ne_nil_iff_ne_zero.mpr hn
  unfold natToDigitString
  rw [natDigits_eq_digits hb]
  rcases hmap : (Nat.digits b n).reverse.map digitChar with _ | ⟨c, cs⟩
  · exact absurd (by simpa using hmap) hne
  · rfl

/-- Parsing the digit string of `n` recovers `n` (generic base). -/
theorem parseDigitsCore_natToDigitString (dv : Char → Option Nat) (b : Nat)
    (hb : 1 < b)
    (hdv : ∀ d, d < b → dv (digitChar d) = some d) (n : Nat) :
    parseDigitsCore dv b (natToDigitString b n) 0 = some n := by
  by_cases hn : n = 0
  · subst hn
    have h0 : dv (digitChar 0) = some 0 := hdv 0 (by omega)
    rw [natToDigitString_zero]
    have hc : digitChar 0 = '0' := by decide
    rw [hc] at h0
    simp [parseDigitsCore, h0]
  · have hlt : ∀ d ∈ (Nat.digits b n).reverse, d < b := by
      intro d hd
      exact Nat.digits_lt_base hb (List.mem_reverse.mp hd)
    have hparse := parseDigitsCore_map dv b hdv (Nat.digits b n).reverse 0 hlt
    have hfold := foldl_reverse_digits b n
    rw [natToDigitString_eq_map (by omega) hn, hparse, hfold]

theorem natToDigitString_ne_nil (b n : Nat) : natToDigitString b n ≠ [] := by
  unfold natToDigitString
  rcases hmap : (natDigits b n).reverse.map digitChar with _ | ⟨c, cs⟩ <;> simp

/-- Number of digits of `n < b^k` is at most `k`. -/
theorem digits_len_le_of_lt_pow {b n k : Nat} (hb : 1 < b) (h : n < b ^ k) :
    (Nat.digits b n).length ≤ k := by
  by_cases hn : n = 0
  · subst hn; simp
  · by_contra hlen
    push_neg at hlen
    have h1 : b ^ (Nat.digits b n).length ≤ b * n :=
      Nat.base_pow_length_digits_le b n hb hn
    have h2 : b ^ (k + 1) ≤ b ^ (Nat.digits b n).length :=
      Nat.pow_le_pow_right (by omega) (by omega)
    have h3 : b * n < b * b ^ k := by
      exact mul_lt_mul_of_pos_left h (by omega)
    have h4 : b * b ^ k = b ^ (k + 1) := by ring
    omega

theorem natToDigitString_length_le {b n k : Nat} (hb : 1 < b)
    (hk : 1 ≤ k) (h : n < b ^ k) :
    (natToDigitString b n).length ≤ k := by
  by_cases hn : n = 0
  · subst hn; rw [natToDigitString_zero]; simpa using hk
  · rw [natToDigitString_eq_map (by omega) hn]
    simp only [List.length_map, List.length_reverse]
    exact digits_len_le_of_lt_pow hb h

theorem mem_natToDigitString {b n : Nat} (hb : 1 < b) (hb16 : b ≤ 16) :
    ∀ c ∈ natToDigitString b n, ∃ d, d < 16 ∧ c = digitChar d := by
  intro c hc
  by_cases hn : n = 0
  · subst hn
    rw [natToDigitString_zero] at hc
    simp at hc
    exact ⟨0, by omega, by rw [hc]; decide⟩
  · rw [natToDigitString_eq_map (by omega) hn] at hc
    rcases List.mem_map.mp hc with ⟨d, hd, hcd⟩
    have : d < b := Nat.digits_lt_base hb (List.mem_reverse.mp hd)
    exact ⟨d, by omega, hcd.symm⟩

theorem hexDigits_len_le_16 {n : Nat} (h : n < 2 ^ 64) :
    (natToDigitString 16 n).length ≤ 16 := by
  have : n < 16 ^ 16 := by norm_num at h ⊢; omega
  exact natToDigitString_length_le (by norm_num) (by norm_num) this

theorem parseUintHex64_natToDigitString {n : Nat} (h : n < 2 ^ 64) :
    parseUintHex64 (natToDigitString 16 n) = some n := by
  unfold parseUintHex64
  rw [if_neg (by simpa using natToDigitString_ne_nil 16 n)]
  rw [parseDigitsCore_natToDigitString hexDigitVal 16 (by norm_num)
    (fun d hd => hexDigitVal_digitChar hd) n]
  change (if n < 2 ^ 64 then some n else none) = some n
  rw [if_pos h]

theorem parseDigitsCore_replicate_zero (dv : Char → Option Nat) (b : Nat)
    (h0 : dv '0' = some 0) :
    ∀ (k : Nat) (cs : List Char),
      parseDigitsCore dv b (List.replicate k '0' ++ cs) 0 =
        parseDigitsCore dv b cs 0
  | 0, cs => rfl
  | k + 1, cs => by
    simp only [List.replicate_succ, List.cons_append, parseDigitsCore, h0]
    simpa using parseDigitsCore_replicate_zero dv b h0 k cs

theorem parseUintHex64_padded {n : Nat} (h : n < 2 ^ 64) :
    parseUintHex64 (List.replicate (16 - (natToDigitString 16 n).length) '0' ++
      natToDigitString 16 n) = some n := by
  unfold parseUintHex64
  have hnil : List.replicate (16 - (natToDigitString 16 n).length) '0' ++
      natToDigitString 16 n ≠ [] := by
    simp [natToDigitString_ne_nil]
  rw [if_neg (by simpa using hnil)]
  rw [parseDigitsCore_replicate_zero hexDigitVal 16 (by decide)]
  rw [parseDigitsCore_natToDigitString hexDigitVal 16 (by norm_num)
    (fun d hd => hexDigitVal_digitChar hd) n]
  change (if n < 2 ^ 64 then some n else none) = some n
  rw [if_pos h]

theorem padded_hex_length {n : Nat} (h : n < 2 ^ 64) :
    (List.replicate (16 - (natToDigitString 16 n).length) '0' ++
      natToDigitString 16 n).length = 16 := by
  have hle := hexDigits_len_le_16 h
  simp only [List.length_append, List.length_replicate]
  omega

/-- Round trip of the trace-identifier string form for 64-bit halves. -/
theorem traceIDFromString_toString {t : MTraceID}
    (hh : t.high < 2 ^ 64) (hl : t.low < 2 ^ 64) :
    traceIDFromString (traceIDToString t) = some t := by
  unfold traceIDToString traceIDFromString traceIDChars
  by_cases h0 : t.high = 0
  · rw [if_pos h0]
    show traceIDFromChars (natToDigitString 16 t.low) = some t
    unfold traceIDFromChars
    have hle := hexDigits_len_le_16 hl
    rw [if_neg (by omega), if_neg (by omega)]
    rw [parseUintHex64_natToDigitString hl]
    obtain ⟨th, tl⟩ := t
    simp only at h0
    subst h0
    rfl
  · rw [if_neg h0]
    show traceIDFromChars (natToDigitString 16 t.high ++ _) = some t
    unfold traceIDFromChars
    have hlenH : 1 ≤ (natToDigitString 16 t.high).length := by
      have := natToDigitString_ne_nil 16 t.high
      cases hx : natToDigitString 16 t.high with
      | nil => exact absurd hx this
      | cons c cs => simp [hx]
    have hlenH16 := hexDigits_len_le_16 hh
    have hpad := padded_hex_length hl
    have hlen : (natToDigitString 16 t.high ++
        (List.replicate (16 - (natToDigitString 16 t.low).length) '0' ++
          natToDigitString 16 t.low)).length =
        (natToDigitString 16 t.high).length + 16 := by
      simp only [List.length_append] at hpad ⊢
      omega
    rw [if_neg (by omega), if_pos (by omega)]
    have htake : (natToDigitString 16 t.high ++
        (List.replicate (16 - (natToDigitString 16 t.low).length) '0' ++
          natToDigitString 16 t.low)).take
        ((natToDigitString 16 t.high ++
          (List.replicate (16 - (natToDigitString 16 t.low).length) '0' ++
            natToDigitString 16 t.low)).length - 16) =
        natToDigitString 16 t.high := by
      rw [hlen]
      have : (natToDigitString 16 t.high).length + 16 - 16 =
          (natToDigitString 16 t.high).length := by omega
      rw [this]
      exact List.take_left _ _
    have hdrop : (natToDigitString 16 t.high ++
        (List.replicate (16 - (natToDigitString 16 t.low).length) '0' ++
          natToDigitString 16 t.low)).drop
        ((natToDigitString 16 t.high ++
          (List.replicate (16 - (natToDigitString 16 t.low).length) '0' ++
            natToDigitString 16 t.low)).length - 16) =
        List.replicate (16 - (natToDigitString 16 t.low).length) '0' ++
          natToDigitString 16 t.low := by
      rw [hlen]
      have : (natToDigitString 16 t.high).length + 16 - 16 =
          (natToDigitString 16 t.high).length := by omega
      rw [this]
      exact List.drop_left _ _
    rw [htake, hdrop, parseUintHex64_natToDigitString hh,
      parseUintHex64_padded hl]

/-- Round trip of the span-identifier string form for 64-bit values. -/
theorem spanIDFromString_toString {n : Nat} (h : n < 2 ^ 64) :
    spanIDFromString (spanIDToString n) = some n := by
  unfold spanIDToString spanIDFromString
  show spanIDFromChars (natToDigitString 16 n) = some n
  unfold spanIDFromChars
  rw [if_neg (by have := hexDigits_len_le_16 h; omega)]
  exact parseUintHex64_natToDigitString h

theorem parseInt64Body_digits_neg {n : Nat} (hn : n ≤ 2 ^ 63) :
    parseInt64Body true (natToDigitString 10 n) = some (-(n : Int)) := by
  unfold parseInt64Body
  rw [if_neg (natToDigitString_ne_nil 10 n)]
  rw [parseDigitsCore_natToDigitString decDigitVal 10 (by norm_num)
    (fun d hd => decDigitVal_digitChar hd) n]
  change (if true = true then if n ≤ 2 ^ 63 then some (-(n : Int)) else none
    else if n < 2 ^ 63 then some ((n : Int)) else none) = some (-(n : Int))
  rw [if_pos rfl, if_pos hn]

theorem parseInt64Body_digits_pos {n : Nat} (hn : n < 2 ^ 63) :
    parseInt64Body false (natToDigitString 10 n) = some ((n : Int)) := by
  unfold parseInt64Body
  rw [if_neg (natToDigitString_ne_nil 10 n)]
  rw [parseDigitsCore_natToDigitString decDigitVal 10 (by norm_num)
    (fun d hd => decDigitVal_digitChar hd) n]
  change (if false = true then if n ≤ 2 ^ 63 then some (-(n : Int)) else none
    else if n < 2 ^ 63 then some ((n : Int)) else none) = some ((n : Int))
  rw [if_neg (by simp), if_pos hn]

theorem parseInt64_formatInt64 {i : Int}
    (h1 : -(2 ^ 63) ≤ i) (h2 : i < 2 ^ 63) :
    parseInt64 (formatInt64 i) = some i := by
  by_cases hneg : i < 0
  · rw [formatInt64, if_pos hneg]
    show parseInt64Body (decide (('-' : Char) = '-'))
      (if ('-' : Char) = '-' ∨ ('-' : Char) = '+' then
        natToDigitString 10 (-i).toNat
      else '-' :: natToDigitString 10 (-i).toNat) = some i
    rw [if_pos (Or.inl rfl)]
    have : decide (('-' : Char) = '-') = true := by decide
    rw [this, parseInt64Body_digits_neg (by omega)]
    congr 1
    omega
  · push_neg at hneg
    have hform : formatInt64 i = natToDigitString 10 i.toNat := by
      rw [formatInt64, if_neg (by omega)]
    rcases hds : natToDigitString 10 i.toNat with _ | ⟨c, rest⟩
    · exact absurd hds (natToDigitString_ne_nil 10 i.toNat)
    · have hcmem : c ∈ natToDigitString 10 i.toNat := by
        rw [hds]; exact List.mem_cons_self c rest
      rcases mem_natToDigitString (by norm_num) (by norm_num) c hcmem
        with ⟨d, hd16, hcd⟩
      have hsign := digitChar_ne_sign hd16
      have hcm : ¬ (c = '-' ∨ c = '+') := by
        rw [hcd]
        rintro (hx | hx)
        · exact hsign.1 hx
        · exact hsign.2 hx
      rw [hform, hds]
      show parseInt64Body (decide (c = '-'))
        (if c = '-' ∨ c = '+' then rest else c :: rest) = some i
      rw [if_neg hcm]
      have hdec : decide (c = '-') = false := by
        simp only [decide_eq_false_iff_not]
        exact fun hx => hsign.1 (hcd ▸ hx)
      rw [hdec, ← hds, parseInt64Body_digits_pos (by omega)]
      congr 1
      omega

theorem parseBool_formatBool (b : Bool) : parseBool (formatBool b) = some b := by
  cases b <;> rfl

theorem string_data_mk (cs : List Char) : (⟨cs⟩ : String).data = cs := rfl

theorem convertRefsR_roundtrip :
    ∀ refs : List MSpanRef, (∀ r ∈ refs, wfRef r = true) →
      convertRefsR (convertReferencesW refs) = some refs
  | [], _ => rfl
  | r :: rs, h => by
    obtain ⟨rrt, rtid, rsid⟩ := r
    have hr := h _ (List.mem_cons_self _ rs)
    have hrs := convertRefsR_roundtrip rs
      (fun x hx => h x (List.mem_cons_of_mem _ hx))
    simp only [wfRef, decide_eq_true_eq] at hr
    obtain ⟨hrt, hh, hl, hs⟩ := hr
    simp only [convertReferencesW, List.map_cons, convertRefsR] at hrs ⊢
    rcases hrt with h0 | h1
    · subst h0
      have hhead : convertRefR
          ⟨convertRefTypeW 0, traceIDToString rtid, spanIDToString rsid⟩ =
          some ⟨0, rtid, rsid⟩ := by
        simp [convertRefR, refTypeR, convertRefTypeW,
          traceIDFromString_toString hh hl, spanIDFromString_toString hs]
      rw [hhead, hrs]
      rfl
    · subst h1
      have hhead : convertRefR
          ⟨convertRefTypeW 1, traceIDToString rtid, spanIDToString rsid⟩ =
          some ⟨1, rtid, rsid⟩ := by
        simp [convertRefR, refTypeR, convertRefTypeW,
          traceIDFromString_toString hh hl, spanIDFromString_toString hs]
      rw [hhead, hrs]
      rfl

theorem convertKeyValueR_roundtrip (kv : MKeyValue)
    (hwf : wfValue kv.value = true) (hnb : isBinary kv.value = false) :
    convertKeyValueR (convertKeyValueW kv) = some kv := by
  obtain ⟨k, v⟩ := kv
  cases v with
  | vStr s =>
    simp [convertKeyValueW, convertKeyValueR, valueTypeName, tagAsString]
  | vBool b =>
    cases b <;>
      simp [convertKeyValueW, convertKeyValueR, valueTypeName, tagAsString,
        formatBool, parseBool]
  | vInt64 i =>
    simp only [wfValue, decide_eq_true_eq] at hwf
    simp [convertKeyValueW, convertKeyValueR, valueTypeName, tagAsString,
      string_data_mk, parseInt64_formatInt64 hwf.1 hwf.2]
  | vFloat64 r => simp [wfValue] at hwf
  | vBinary bs => simp [isBinary] at hnb

theorem convertKeyValuesR_roundtrip :
    ∀ kvs : List MKeyValue, (∀ kv ∈ kvs, wfValue kv.value = true) →
      convertKeyValuesR (convertKeyValuesW kvs) =
        some (kvs.filter (fun kv => !isBinary kv.value))
  | [], _ => rfl
  | kv :: kvs, h => by
    have hkv := h kv (List.mem_cons_self kv kvs)
    have hrest := convertKeyValuesR_roundtrip kvs
      (fun x hx => h x (List.mem_cons_of_mem kv hx))
    simp only [convertKeyValuesW] at hrest ⊢
    by_cases hb : isBinary kv.value = true
    · simpa [hb] using hrest
    · have hbf : isBinary kv.value = false := by
        cases hx : isBinary kv.value
        · rfl
        · exact absurd hx hb
      simp [convertKeyValuesR, hbf, convertKeyValueR_roundtrip kv hkv hbf, hrest]

theorem duration_roundtrip {d : Int} (h0 : 0 ≤ d) (h1 : d < 2 ^ 63) :
    microsecondsAsDuration (toUint64 (Int.tdiv d 1000)) =
      Int.tdiv d 1000 * 1000 := by
  have hsum := Int.tdiv_add_tmod d 1000
  have hm0 : 0 ≤ Int.tmod d 1000 := Int.tmod_nonneg 1000 h0
  have hmlt : Int.tmod d 1000 < 1000 := Int.tmod_lt_of_pos d (by norm_num)
  have hq0 : 0 ≤ Int.tdiv d 1000 := by omega
  have hqlt : Int.tdiv d 1000 * 1000 < 2 ^ 63 := by omega
  have hu : toUint64 (Int.tdiv d 1000) = (Int.tdiv d 1000).toNat := by
    unfold toUint64
    rw [Int.emod_eq_of_lt hq0 (by omega)]
  rw [hu]
  unfold microsecondsAsDuration toInt64
  have hlt64 : (Int.tdiv d 1000).toNat * 1000 < 2 ^ 64 := by omega
  rw [Nat.mod_eq_of_lt hlt64, if_pos (by omega)]
  push_cast
  omega

/-- C1 (amended): for every well-formed domain span `s`, decoding the
document produced by encoding `s` succeeds and reproduces `s` in trace id,
span id, operation name, start time, references, non-binary tags, process
service name and non-binary process tags, and warnings; beyond the claim's
raw-binary-tag exception, the duration comes back truncated to whole
microseconds (the document stores `Duration.Microseconds()`), and the
span's logs are absent because `WriteSpan` never persists the `Logs` field
(the assignment is commented out in the writer). -/
theorem C1_roundtrip_amended (s : MSpan) (h : wfSpan s = true) :
    decodeSpanDoc (writeSpanDoc s) = some (roundTripSpan s) := by
  simp only [wfSpan, Bool.and_eq_true, decide_eq_true_eq,
    List.all_eq_true] at h
  obtain ⟨⟨⟨hids, hrefs⟩, htags⟩, hptags⟩ := h
  obtain ⟨hh, hl, hsid, hd0, hd1⟩ := hids
  unfold decodeSpanDoc writeSpanDoc
  simp only
  rw [traceIDFromString_toString hh hl]
  simp only [Option.some_bind]
  rw [spanIDFromString_toString hsid]
  simp only [Option.some_bind]
  rw [convertRefsR_roundtrip s.references hrefs]
  simp only [Option.some_bind]
  rw [convertKeyValuesR_roundtrip s.tags htags]
  simp only [Option.some_bind]
  show ((convertKeyValuesR (convertProcessW s.process).tags).bind fun pTags =>
    (convertLogsR []).map fun logs => _) = _
  rw [show (convertProcessW s.process).tags = convertKeyValuesW s.process.tags
    from rfl]
  rw [convertKeyValuesR_roundtrip s.process.tags hptags]
  simp only [Option.some_bind]
  show some _ = some (roundTripSpan s)
  rw [Option.some_inj]
  unfold roundTripSpan
  rw [duration_roundtrip hd0 hd1]
  rfl

/-- C1 (counterexample): `c1Span` is well-formed, has no raw-binary tag,
yet `decode (encode c1Span)` does not reproduce it — the logs are gone and
the duration became 1000 ns — so the claim as stated is false. -/
theorem C1_counterexample :
    wfSpan c1Span = true ∧
      c1Span.tags.all (fun kv => !isBinary kv.value) = true ∧
      decodeSpanDoc (writeSpanDoc c1Span) ≠ some c1Span := by
  refine ⟨by decide, by decide, ?_⟩
  decide

/-- C1 (witness): the amended round trip evaluated at `c1Span`. -/
theorem C1_witness :
    decodeSpanDoc (writeSpanDoc c1Span) = some (roundTripSpan c1Span) :=
  C1_roundtrip_amended c1Span (by decide)

/-- C10: the writer's reference-kind conversion is total and collapses
every kind other than follows-from (enum value 1) — including unrecognized
kinds — to the strict parent/child kind `CHILD_OF`; consequently the
document written for a span carries a `CHILD_OF` reference for any such
reference of the span. -/
theorem C10_unknown_ref_kinds_become_child_of (s : MSpan) (r : MSpanRef)
    (hr : r ∈ s.references) (hk : r.refType ≠ 1) :
    convertRefTypeW r.refType = "CHILD_OF" ∧
      (⟨"CHILD_OF", traceIDToString r.traceID, spanIDToString r.spanID⟩ :
        DocReference) ∈ (writeSpanDoc s).references := by
  have hct : convertRefTypeW r.refType = "CHILD_OF" := by
    unfold convertRefTypeW
    rw [if_neg hk]
  refine ⟨hct, ?_⟩
  show _ ∈ convertReferencesW s.references
  unfold convertReferencesW
  rw [List.mem_map]
  exact ⟨r, hr, by rw [hct]⟩

/-- C10 (witness): a span holding a single reference of the unrecognized
kind 7 is written with a `CHILD_OF` reference. -/
theorem C10_witness :
    convertRefTypeW (7 : Int) = "CHILD_OF" ∧
      (⟨"CHILD_OF", traceIDToString ⟨0, 1⟩, spanIDToString 5⟩ :
        DocReference) ∈
        (writeSpanDoc { c1Span with
          references := [⟨7, ⟨0, 1⟩, 5⟩] }).references :=
  C10_unknown_ref_kinds_become_child_of
    { c1Span with references := [⟨7, ⟨0, 1⟩, 5⟩] }
    ⟨7, ⟨0, 1⟩, 5⟩ (by decide) (by decide)

theorem mem_insertIfNew {seen : List String} {x y : String} :
    y ∈ insertIfNew seen x ↔ y ∈ seen ∨ y = x := by
  unfold insertIfNew
  by_cases h : x ∈ seen
  · rw [if_pos h]
    constructor
    · exact Or.inl
    · rintro (hy | hy)
      · exact hy
      · exact hy ▸ h
  · rw [if_neg h]
    simp

theorem insertIfNew_nodup {seen : List String} {x : String}
    (h : seen.Nodup) : (insertIfNew seen x).Nodup := by
  unfold insertIfNew
  by_cases hx : x ∈ seen
  · rw [if_pos hx]; exact h
  · rw [if_neg hx]
    simpa [List.nodup_append] using ⟨h, fun hy => hx hy⟩

theorem insertIfNew_length {seen : List String} {x : String} :
    seen.length ≤ (insertIfNew seen x).length ∧
      (insertIfNew seen x).length ≤ seen.length + 1 := by
  unfold insertIfNew
  by_cases hx : x ∈ seen
  · rw [if_pos hx]; omega
  · rw [if_neg hx]; simp

theorem foldl_insertIfNew_extends :
    ∀ (l : List String) (seen : List String),
      ∃ t, l.foldl insertIfNew seen = seen ++ t
  | [], seen => ⟨[], by simp⟩
  | x :: l, seen => by
    rcases foldl_insertIfNew_extends l (insertIfNew seen x) with ⟨t, ht⟩
    by_cases hx : x ∈ seen
    · have hx2 : insertIfNew seen x = seen := by
        unfold insertIfNew; rw [if_pos hx]
      exact ⟨t, by rw [List.foldl_cons, ht, hx2]⟩
    · have hx2 : insertIfNew seen x = seen ++ [x] := by
        unfold insertIfNew; rw [if_neg hx]
      exact ⟨[x] ++ t, by rw [List.foldl_cons, ht, hx2, List.append_assoc]⟩

theorem foldl_insertIfNew_nodup :
    ∀ (l : List String) (seen : List String), seen.Nodup →
      (l.foldl insertIfNew seen).Nodup
  | [], _, h => h
  | x :: l, seen, h =>
    foldl_insertIfNew_nodup l (insertIfNew seen x) (insertIfNew_nodup h)

theorem mem_foldl_insertIfNew :
    ∀ (l : List String) (seen : List String) (y : String),
      y ∈ l.foldl insertIfNew seen ↔ y ∈ seen ∨ y ∈ l
  | [], seen, y => by simp
  | x :: l, seen, y => by
    rw [List.foldl_cons, mem_foldl_insertIfNew l (insertIfNew seen x) y,
      mem_insertIfNew]
    constructor
    · rintro ((h | h) | h)
      · exact Or.inl h
      · exact Or.inr (h ▸ List.mem_cons_self x l)
      · exact Or.inr (List.mem_cons_of_mem x h)
    · rintro (h | h)
      · exact Or.inl (Or.inl h)
      · rcases List.mem_cons.mp h with h | h
        · exact Or.inl (Or.inr h)
        · exact Or.inr h

theorem dedupF_nodup (l : List String) : (dedupF l).Nodup :=
  foldl_insertIfNew_nodup l [] List.nodup_nil

theorem mem_dedupF (l : List String) (y : String) :
    y ∈ dedupF l ↔ y ∈ l := by
  unfold dedupF
  rw [mem_foldl_insertIfNew]
  simp

theorem dedupF_length_eq_of_perm {l1 l2 : List String} (h : l1.Perm l2) :
    (dedupF l1).length = (dedupF l2).length := by
  have hperm : (dedupF l1).Perm (dedupF l2) := by
    rw [List.perm_ext_iff_of_nodup (dedupF_nodup l1) (dedupF_nodup l2)]
    intro a
    rw [mem_dedupF, mem_dedupF]
    exact h.mem_iff
  exact hperm.length_eq

theorem insertByStartTime_perm (d : SpanDoc) :
    ∀ l : List SpanDoc, (insertByStartTime d l).Perm (d :: l)
  | [] => List.Perm.refl _
  | e :: es => by
    unfold insertByStartTime
    by_cases h : d.startTime ≤ e.startTime
    · rw [if_pos h]
      exact ((insertByStartTime_perm d es).cons e).trans (List.Perm.swap d e es)
    · rw [if_neg h]

theorem sortByStartTimeDesc_perm :
    ∀ l : List SpanDoc, (sortByStartTimeDesc l).Perm l
  | [] => List.Perm.refl _
  | d :: l => by
    unfold sortByStartTimeDesc
    rw [List.foldr_cons]
    exact (insertByStartTime_perm d _).trans
      ((sortByStartTimeDesc_perm l).cons d)

/-- Master equation for the `findTraceIDs` cursor loop: with a positive
limit, the collected ids are the first-occurrence dedup of the incoming
trace-id sequence truncated to the limit. -/
theorem collectIds_eq (limit : Int) (hN : 1 ≤ limit) :
    ∀ (docs : List SpanDoc) (seen : List String),
      (seen.length : Int) < limit →
      collectIds limit docs seen =
        ((docs.map (fun d => d.traceID)).foldl insertIfNew seen).take
          limit.toNat
  | [], seen, hseen => by
    simp only [collectIds, List.map_nil, List.foldl_nil]
    rw [List.take_of_length_le (by omega)]
  | d :: ds, seen, hseen => by
    show (let seen2 := insertIfNew seen d.traceID
      if limit ≤ (seen2.length : Int) then seen2
      else collectIds limit ds seen2) = _
    simp only
    by_cases hbr : limit ≤ ((insertIfNew seen d.traceID).length : Int)
    · rw [if_pos hbr]
      have hlen : ((insertIfNew seen d.traceID).length : Int) = limit := by
        have := @insertIfNew_length seen d.traceID
        omega
      rw [List.map_cons, List.foldl_cons]
      rcases foldl_insertIfNew_extends (ds.map (fun d => d.traceID))
        (insertIfNew seen d.traceID) with ⟨t, ht⟩
      rw [ht, List.take_left' (by omega)]
    · rw [if_neg hbr]
      rw [collectIds_eq limit hN ds (insertIfNew seen d.traceID) (by omega)]
      rw [List.map_cons, List.foldl_cons]

theorem distinctMatchingIds_length (store : List SpanDoc)
    (q : TraceQueryParameters) :
    (distinctMatchingIds store q).length = distinctIdCount store q :=
  dedupF_length_eq_of_perm
    ((sortByStartTimeDesc_perm (matchingDocs store q)).map (fun d => d.traceID))

/-- C5 (amended): for every find-trace-ids query with result-count limit
N ≥ 1, the returned id set is exactly the first-occurrence dedup of the
matching documents' trace ids in descending start-time fetch order,
truncated to N; hence it is duplicate-free, of size ≤ N, of size exactly N
when at least N distinct trace ids match, and contains every matching id
when at most N distinct ids match.  (For N ≤ 0 the loop still returns one
id when anything matches — see the counterexample.) -/
theorem C5_find_trace_ids_limit (store : List SpanDoc)
    (q : TraceQueryParameters) (hN : 1 ≤ q.numTraces) :
    findTraceIDs (.ok store) q =
      .ok ((distinctMatchingIds store q).take q.numTraces.toNat) ∧
    ((distinctMatchingIds store q).take q.numTraces.toNat).Nodup ∧
    (((distinctMatchingIds store q).take q.numTraces.toNat).length : Int) ≤
      q.numTraces ∧
    (q.numTraces ≤ (distinctIdCount store q : Int) →
      (((distinctMatchingIds store q).take q.numTraces.toNat).length : Int) =
        q.numTraces) ∧
    ((distinctIdCount store q : Int) ≤ q.numTraces →
      ∀ d ∈ store, matchesFilter (buildTraceIDFilter q) d = true →
        d.traceID ∈ (distinctMatchingIds store q).take q.numTraces.toNat) := by
  have hlen := distinctMatchingIds_length store q
  have hNtoNat : ((q.numTraces.toNat : Int)) = q.numTraces :=
    Int.toNat_of_nonneg (by omega)
  have heq : findTraceIDs (.ok store) q =
      .ok ((distinctMatchingIds store q).take q.numTraces.toNat) := by
    show Except.ok (collectIds q.numTraces
      (sortByStartTimeDesc (matchingDocs store q)) []) = _
    rw [collectIds_eq q.numTraces hN _ [] (by simp only [List.length_nil]; omega)]
    rfl
  refine ⟨heq, ?_, ?_, ?_, ?_⟩
  · exact (List.take_sublist _ _).nodup (dedupF_nodup _)
  · rw [List.length_take]
    have := Nat.min_le_left q.numTraces.toNat
      (distinctMatchingIds store q).length
    omega
  · intro hge
    rw [List.length_take]
    omega
  · intro hle d hd hm
    have hmem : d.traceID ∈ distinctMatchingIds store q := by
      unfold distinctMatchingIds
      rw [mem_dedupF, List.mem_map]
      refine ⟨d, ?_, rfl⟩
      exact ((sortByStartTimeDesc_perm _).mem_iff).mpr
        (List.mem_filter.mpr ⟨hd, hm⟩)
    rw [List.take_of_length_le (by omega)]
    exact hmem

/-- C5 (counterexample): with result-count limit N = 0 and one matching
span, the returned id set has size 1 > 0 — the cursor loop inserts into
the dedup set before checking the limit — so the claimed bound
`|ids| ≤ N` fails at N = 0. -/
theorem C5_counterexample :
    c5Query.numTraces = 0 ∧
      findTraceIDs (.ok [c5Doc]) c5Query = .ok ["1"] ∧
      ¬ ((([("1" : String)] : List String).length : Int) ≤ c5Query.numTraces) :=
  ⟨rfl, rfl, by decide⟩

/-- C5 (witness): the amended statement evaluated at a one-document store
with limit 1. -/
theorem C5_witness :
    findTraceIDs (.ok [c5Doc]) c5QueryW =
      .ok ((distinctMatchingIds [c5Doc] c5QueryW).take
        c5QueryW.numTraces.toNat) ∧
    ((distinctMatchingIds [c5Doc] c5QueryW).take
      c5QueryW.numTraces.toNat).Nodup ∧
    (((distinctMatchingIds [c5Doc] c5QueryW).take
      c5QueryW.numTraces.toNat).length : Int) ≤ c5QueryW.numTraces ∧
    (c5QueryW.numTraces ≤ (distinctIdCount [c5Doc] c5QueryW : Int) →
      (((distinctMatchingIds [c5Doc] c5QueryW).take
        c5QueryW.numTraces.toNat).length : Int) = c5QueryW.numTraces) ∧
    ((distinctIdCount [c5Doc] c5QueryW : Int) ≤ c5QueryW.numTraces →
      ∀ d ∈ [c5Doc], matchesFilter (buildTraceIDFilter c5QueryW) d = true →
        d.traceID ∈ (distinctMatchingIds [c5Doc] c5QueryW).take
          c5QueryW.numTraces.toNat) :=
  C5_find_trace_ids_limit [c5Doc] c5QueryW (by decide)

/-- C9: the duration filter built by `findTraceIDs` constrains a
document's (microsecond) duration to `≤ max` when only the maximum bound
is non-zero, to `≥ min` when only the minimum is non-zero, and to the
single two-sided range `min ≤ duration ≤ max` when both are non-zero (the
final filter document holds both bounds simultaneously); semantically the
built filter holds iff each non-zero bound's inequality holds. -/
theorem C9_duration_bounds (q : TraceQueryParameters) (dur : Int) :
    (durationHolds (buildDurationFilter q) dur = true ↔
      ((q.durationMax ≠ 0 → dur ≤ Int.tdiv q.durationMax 1000) ∧
       (q.durationMin ≠ 0 → Int.tdiv q.durationMin 1000 ≤ dur))) ∧
    (q.durationMax ≠ 0 → q.durationMin ≠ 0 →
      buildDurationFilter q =
        some ⟨some (Int.tdiv q.durationMax 1000),
          some (Int.tdiv q.durationMin 1000)⟩) ∧
    (q.durationMax ≠ 0 → q.durationMin = 0 →
      buildDurationFilter q =
        some ⟨some (Int.tdiv q.durationMax 1000), none⟩) ∧
    (q.durationMax = 0 → q.durationMin ≠ 0 →
      buildDurationFilter q =
        some ⟨none, some (Int.tdiv q.durationMin 1000)⟩) := by
  by_cases hmax : q.durationMax = 0 <;> by_cases hmin : q.durationMin = 0 <;>
    simp [buildDurationFilter, durationHolds, hmax, hmin]

/-- C9 (witness): the duration-bound characterization evaluated at
`c9Query` and duration 5µs. -/
theorem C9_witness :
    (durationHolds (buildDurationFilter c9Query) 5 = true ↔
      ((c9Query.durationMax ≠ 0 → 5 ≤ Int.tdiv c9Query.durationMax 1000) ∧
       (c9Query.durationMin ≠ 0 → Int.tdiv c9Query.durationMin 1000 ≤ 5))) ∧
    (c9Query.durationMax ≠ 0 → c9Query.durationMin ≠ 0 →
      buildDurationFilter c9Query =
        some ⟨some (Int.tdiv c9Query.durationMax 1000),
          some (Int.tdiv c9Query.durationMin 1000)⟩) ∧
    (c9Query.durationMax ≠ 0 → c9Query.durationMin = 0 →
      buildDurationFilter c9Query =
        some ⟨some (Int.tdiv c9Query.durationMax 1000), none⟩) ∧
    (c9Query.durationMax = 0 → c9Query.durationMin ≠ 0 →
      buildDurationFilter c9Query =
        some ⟨none, some (Int.tdiv c9Query.durationMin 1000)⟩) :=
  C9_duration_bounds c9Query 5

theorem matchesFilter_tags {f : TraceFilter} {d : SpanDoc}
    (h : matchesFilter f d = true) :
    ∀ kv ∈ f.tagFilters, ∃ t ∈ d.tags, t.key = kv.1 ∧ t.value = .str kv.2 := by
  intro kv hkv
  simp only [matchesFilter, Bool.and_eq_true, List.all_eq_true] at h
  have := h.1.1.1.2 kv hkv
  simp only [tagElemMatch, List.any_eq_true, decide_eq_true_eq] at this
  exact this

theorem mem_collectIds (limit : Int) :
    ∀ (docs : List SpanDoc) (seen : List String) (y : String),
      y ∈ collectIds limit docs seen → y ∈ seen ∨ ∃ d ∈ docs, d.traceID = y
  | [], seen, y, h => Or.inl h
  | d :: ds, seen, y, h => by
    revert h
    show y ∈ (let seen2 := insertIfNew seen d.traceID
      if limit ≤ (seen2.length : Int) then seen2
      else collectIds limit ds seen2) → _
    simp only
    by_cases hbr : limit ≤ ((insertIfNew seen d.traceID).length : Int)
    · rw [if_pos hbr]
      intro h
      rcases mem_insertIfNew.mp h with h | h
      · exact Or.inl h
      · exact Or.inr ⟨d, List.mem_cons_self d ds, h.symm⟩
    · rw [if_neg hbr]
      intro h
      rcases mem_collectIds limit ds (insertIfNew seen d.traceID) y h with h | h
      · rcases mem_insertIfNew.mp h with h | h
        · exact Or.inl h
        · exact Or.inr ⟨d, List.mem_cons_self d ds, h.symm⟩
      · rcases h with ⟨e, he, hey⟩
        exact Or.inr ⟨e, List.mem_cons_of_mem d he, hey⟩

/-- C6: for a query with a non-empty tag mapping, the generated filter
requires, for each (key, value) entry, that some tag of the same single
span document has that key and that value, and all entries are conjoined:
a document matches only if it carries every requested pair simultaneously,
and every returned trace id is justified by a single matching document
carrying all requested pairs. -/
theorem C6_tag_conjunction (store : List SpanDoc) (q : TraceQueryParameters)
    (hne : q.tags ≠ []) :
    (∀ d : SpanDoc, matchesFilter (buildTraceIDFilter q) d = true →
      ∀ kv ∈ q.tags, ∃ t ∈ d.tags, t.key = kv.1 ∧ t.value = .str kv.2) ∧
    (∀ (ids : List String) (tid : String),
      findTraceIDs (.ok store) q = .ok ids → tid ∈ ids →
      ∃ d ∈ store, d.traceID = tid ∧
        matchesFilter (buildTraceIDFilter q) d = true ∧
        ∀ kv ∈ q.tags, ∃ t ∈ d.tags, t.key = kv.1 ∧ t.value = .str kv.2) := by
  constructor
  · intro d hd
    exact matchesFilter_tags hd
  · intro ids tid hfind hmem
    have hstep : (Except.ok (collectIds q.numTraces
        (sortByStartTimeDesc (matchingDocs store q)) []) :
        Except String (List String)) = .ok ids := hfind
    have hids : collectIds q.numTraces
        (sortByStartTimeDesc (matchingDocs store q)) [] = ids :=
      Except.ok.inj hstep
    rw [← hids] at hmem
    rcases mem_collectIds q.numTraces _ [] tid hmem with h | ⟨d, hd, hdt⟩
    · simp at h
    · have hd2 : d ∈ matchingDocs store q :=
        (sortByStartTimeDesc_perm _).mem_iff.mp hd
      rcases List.mem_filter.mp hd2 with ⟨hds, hdm⟩
      exact ⟨d, hds, hdt, hdm, matchesFilter_tags hdm⟩

/-- C6 (witness): the conjunction evaluated on a one-document store whose
document carries both requested pairs. -/
theorem C6_witness :
    (∀ d : SpanDoc, matchesFilter (buildTraceIDFilter c6Query) d = true →
      ∀ kv ∈ c6Query.tags, ∃ t ∈ d.tags,
        t.key = kv.1 ∧ t.value = .str kv.2) ∧
    (∀ (ids : List String) (tid : String),
      findTraceIDs (.ok [c6Doc]) c6Query = .ok ids → tid ∈ ids →
      ∃ d ∈ [c6Doc], d.traceID = tid ∧
        matchesFilter (buildTraceIDFilter c6Query) d = true ∧
        ∀ kv ∈ c6Query.tags, ∃ t ∈ d.tags,
          t.key = kv.1 ∧ t.value = .str kv.2) :=
  C6_tag_conjunction [c6Doc] c6Query (by decide)

/-- C7: a trace id matching zero stored span documents makes `GetTrace`
fail with `ErrTraceNotFound`, while `FindTraces` over a filter matching
zero documents returns an empty result with no error. -/
theorem C7_not_found_vs_empty (store : List SpanDoc) (tid : MTraceID)
    (q : TraceQueryParameters) :
    ((∀ d ∈ store, d.traceID ≠ traceIDToString tid) →
      getTrace (.ok store) tid = .error errTraceNotFound) ∧
    ((∀ d ∈ store, matchesFilter (buildTraceIDFilter q) d = false) →
      findTraces (.ok store) q = .ok []) := by
  constructor
  · intro h
    have hfil : store.filter
        (fun d => decide (d.traceID ∈ [traceIDToString tid])) = [] := by
      rw [List.filter_eq_nil_iff]
      intro d hd
      simp [h d hd]
    unfold getTrace fetchTracesById
    show (match fetchLoop (store.filter
        (fun d => decide (d.traceID ∈ [traceIDToString tid]))) [] with
      | Except.error e => Except.error e
      | Except.ok [] => Except.error errTraceNotFound
      | Except.ok (e :: _) => Except.ok e.2) = Except.error errTraceNotFound
    rw [hfil]
    rfl
  · intro h
    have hfil : matchingDocs store q = [] := by
      unfold matchingDocs
      rw [List.filter_eq_nil_iff]
      intro d hd
      simp [h d hd]
    have hids : findTraceIDs (.ok store) q = .ok [] := by
      show Except.ok (collectIds q.numTraces
        (sortByStartTimeDesc (matchingDocs store q)) []) = .ok []
      rw [hfil]
      rfl
    unfold findTraces
    rw [hids]
    rfl

/-- C7 (witness): both halves evaluated on the empty store. -/
theorem C7_witness :
    getTrace (.ok ([] : List SpanDoc)) ⟨0, 1⟩ = .error errTraceNotFound ∧
      findTraces (.ok ([] : List SpanDoc)) c5QueryW = .ok [] :=
  ⟨(C7_not_found_vs_empty [] ⟨0, 1⟩ c5QueryW).1 (by simp),
    (C7_not_found_vs_empty [] ⟨0, 1⟩ c5QueryW).2 (by simp)⟩

theorem fetchLoop_error :
    ∀ (docs : List SpanDoc) (acc : List (String × List MSpan)),
      (∃ d ∈ docs, decodeSpanDoc d = none) →
      fetchLoop docs acc = .error "error decoding span"
  | [], _, h => by simp at h
  | d :: ds, acc, h => by
    show (match decodeSpanDoc d with
      | none => (Except.error "error decoding span" :
          Except String (List (String × List MSpan)))
      | some s => fetchLoop ds (appendSpan acc d.traceID s)) = _
    cases hd : decodeSpanDoc d with
    | none => rfl
    | some s =>
      have hds : ∃ x ∈ ds, decodeSpanDoc x = none := by
        rcases h with ⟨x, hx, hxn⟩
        rcases List.mem_cons.mp hx with rfl | hx2
        · rw [hd] at hxn; cases hxn
        · exact ⟨x, hx2, hxn⟩
      exact fetchLoop_error ds _ hds

theorem fetchLoop_ok :
    ∀ (docs : List SpanDoc) (acc : List (String × List MSpan)),
      (∀ d ∈ docs, (decodeSpanDoc d).isSome) →
      fetchLoop docs acc = .ok (docs.foldl appendDecoded acc)
  | [], _, _ => rfl
  | d :: ds, acc, h => by
    show (match decodeSpanDoc d with
      | none => (Except.error "error decoding span" :
          Except String (List (String × List MSpan)))
      | some s => fetchLoop ds (appendSpan acc d.traceID s)) = _
    have hd := h d (List.mem_cons_self d ds)
    cases hde : decodeSpanDoc d with
    | none => rw [hde] at hd; cases hd
    | some s =>
      rw [List.foldl_cons]
      have hstep : appendDecoded acc d = appendSpan acc d.traceID s := by
        unfold appendDecoded
        rw [hde]
      rw [hstep]
      exact fetchLoop_ok ds _ (fun x hx => h x (List.mem_cons_of_mem d hx))

theorem dedupF_append_singleton (l : List String) (x : String) :
    dedupF (l ++ [x]) = if x ∈ l then dedupF l else dedupF l ++ [x] := by
  have h1 : dedupF (l ++ [x]) = insertIfNew (dedupF l) x := by
    unfold dedupF
    rw [List.foldl_append, List.foldl_cons, List.foldl_nil]
  rw [h1]
  unfold insertIfNew
  by_cases hx : x ∈ l
  · rw [if_pos ((mem_dedupF l x).mpr hx), if_pos hx]
  · rw [if_neg (fun hc => hx ((mem_dedupF l x).mp hc)), if_neg hx]

theorem foldl_appendDecoded_groupSpec (docs : List SpanDoc)
    (hall : ∀ d ∈ docs, (decodeSpanDoc d).isSome) :
    docs.foldl appendDecoded [] = groupSpec docs := by
  induction docs using List.reverseRecOn with
  | nil => rfl
  | append_singleton docs d ih =>
    have hd := hall d (by simp)
    have hdocs : ∀ x ∈ docs, (decodeSpanDoc x).isSome :=
      fun x hx => hall x (by simp [hx])
    rcases hde : decodeSpanDoc d with _ | s
    · rw [hde] at hd; cases hd
    rw [List.foldl_append, List.foldl_cons, List.foldl_nil, ih hdocs]
    have hstep : appendDecoded (groupSpec docs) d =
        appendSpan (groupSpec docs) d.traceID s := by
      unfold appendDecoded
      rw [hde]
    rw [hstep]
    unfold groupSpec
    rw [List.map_append, List.map_cons, List.map_nil,
      dedupF_append_singleton]
    by_cases hmem : d.traceID ∈ docs.map (fun d => d.traceID)
    · rw [if_pos hmem]
      have htid : d.traceID ∈ dedupF (docs.map (fun d => d.traceID)) :=
        (mem_dedupF _ _).mpr hmem
      unfold appendSpan
      rw [if_pos (by
        rw [List.any_eq_true]
        exact ⟨(d.traceID, _), List.mem_map.mpr ⟨d.traceID, htid, rfl⟩,
          by simp⟩)]
      rw [List.map_map]
      apply List.map_congr_left
      intro t _
      simp only [Function.comp_apply]
      by_cases ht : t = d.traceID
      · subst ht
        rw [if_pos rfl, List.filter_append, List.filterMap_append]
        have hfd : List.filter
            (fun x => decide (x.traceID = d.traceID)) [d] = [d] := by simp
        rw [hfd]
        simp [List.filterMap_cons, hde]
      · rw [if_neg ht, List.filter_append]
        have hne2 : d.traceID ≠ t := fun hx => ht hx.symm
        have hfd : List.filter (fun x => decide (x.traceID = t)) [d] = [] := by
          simp [hne2]
        rw [hfd, List.append_nil]
    · rw [if_neg hmem]
      have htid : d.traceID ∉ dedupF (docs.map (fun d => d.traceID)) :=
        fun hx => hmem ((mem_dedupF _ _).mp hx)
      unfold appendSpan
      rw [if_neg (by
        rw [List.any_eq_true]
        rintro ⟨e, he, het⟩
        rcases List.mem_map.mp he with ⟨t, ht, rfl⟩
        simp only [decide_eq_true_eq] at het
        exact htid (het ▸ ht))]
      rw [List.map_append, List.map_cons, List.map_nil]
      congr 1
      · apply List.map_congr_left
        intro t ht
        have htne : d.traceID ≠ t := fun hx => htid (hx ▸ ht)
        rw [List.filter_append]
        have hfd : List.filter (fun x => decide (x.traceID = t)) [d] = [] := by
          simp [htne]
        rw [hfd, List.append_nil]
      · have hfil : List.filter (fun x => decide (x.traceID = d.traceID))
            docs = [] := by
          rw [List.filter_eq_nil_iff]
          intro x hx hxt
          simp only [decide_eq_true_eq] at hxt
          exact hmem (List.mem_map.mpr ⟨x, hx, hxt⟩)
        rw [List.filter_append, hfil, List.nil_append]
        have hfd : List.filter (fun x => decide (x.traceID = d.traceID)) [d] =
            [d] := by simp
        rw [hfd]
        simp [List.filterMap_cons, hde]

/-- C8: for every fetch-and-group of span documents by trace ids, if
decoding any single matched document fails, the entire operation fails with
an error and no partial mapping is returned; otherwise every matched
document is decoded and grouped by its (raw) trace id in arrival order,
both across traces (first-occurrence key order) and within each trace. -/
theorem C8_decode_failure_is_total (store : List SpanDoc)
    (ids : List String) :
    ((∃ d ∈ store.filter (fun d => decide (d.traceID ∈ ids)),
        decodeSpanDoc d = none) →
      fetchTracesById (.ok store) ids = .error "error decoding span") ∧
    ((∀ d ∈ store.filter (fun d => decide (d.traceID ∈ ids)),
        (decodeSpanDoc d).isSome) →
      fetchTracesById (.ok store) ids =
        .ok (groupSpec (store.filter (fun d => decide (d.traceID ∈ ids))))) := by
  constructor
  · intro h
    show fetchLoop (store.filter (fun d => decide (d.traceID ∈ ids))) [] = _
    exact fetchLoop_error _ [] h
  · intro h
    show fetchLoop (store.filter (fun d => decide (d.traceID ∈ ids))) [] = _
    rw [fetchLoop_ok _ [] h, foldl_appendDecoded_groupSpec _ h]

/-- C8 (witness): the success half evaluated on a three-document store
(ids "1" and "2" both requested). -/
theorem C8_witness :
    fetchTracesById (.ok [c8DocA, c8DocB, c8DocC]) ["1", "2"] =
      .ok (groupSpec ([c8DocA, c8DocB, c8DocC].filter
        (fun d => decide (d.traceID ∈ ["1", "2"])))) :=
  (C8_decode_failure_is_total [c8DocA, c8DocB, c8DocC] ["1", "2"]).2
    (by decide)

/-- C3 (amended): `findTraceIDs`, `fetchTracesById`, `FindTraces`,
`GetTrace`, `GetServices` and `GetOperations` all surface a failing store
fetch to their caller (wrapped with context).  `GetDependencies` is the
exception: the error of the trace fetch inside it is only logged
(`zap.S().Error(err)` without a return) and swallowed, and it returns a
successful empty edge set built from the nil trace slice. -/
theorem C3_error_propagation_amended (e : String) (q : TraceQueryParameters)
    (tid : MTraceID) (ids : List String) (svc : String)
    (endTs lookback : Int) :
    findTraceIDs (.error e) q = .error ("error getting traceIDs: " ++ e) ∧
    fetchTracesById (.error e) ids = .error ("error finding spans " ++ e) ∧
    findTraces (.error e) q = .error ("error getting traceIDs: " ++ e) ∧
    getTrace (.error e) tid = .error ("error finding spans " ++ e) ∧
    getServices (.error e) = .error ("distinct call failed: " ++ e) ∧
    getOperations (.error e) svc = .error ("distinct call failed: " ++ e) ∧
    getDependencies (.error e) endTs lookback = .ok [] :=
  ⟨rfl, rfl, rfl, rfl, rfl, rfl, rfl⟩

/-- C3 (counterexample): when the trace fetch inside `GetDependencies`
fails, `GetDependencies` returns a successful empty edge set, not the
error — refuting the claim that every operation surfaces the failure. -/
theorem C3_counterexample :
    getDependencies (.error "store unavailable") 10 5 = .ok [] ∧
      getDependencies (.error "store unavailable") 10 5 ≠
        .error "store unavailable" :=
  ⟨rfl, fun h => Except.noConfusion h⟩

/-! ### Characterization of the dependency edge map (C4, C2) -/

theorem buildEdges_append (obs : List (String × String))
    (o : String × String) :
    buildEdges (obs ++ [o]) = edgeInsert (buildEdges obs) o := by
  unfold buildEdges
  rw [List.foldl_append, List.foldl_cons, List.foldl_nil]

/-- Bumping a call count in the edge map preserves the key list. -/
theorem map_fst_bump (m : List (String × MDependencyLink)) (key : String) :
    (m.map (fun e => if e.1 = key then
      (e.1, (⟨e.2.parent, e.2.child, e.2.callCount + 1⟩ : MDependencyLink))
      else e)).map (fun en => en.1) = m.map (fun en => en.1) := by
  rw [List.map_map]
  apply List.map_congr_left
  intro e _
  simp only [Function.comp_apply]
  by_cases he : e.1 = key
  · rw [if_pos he]
  · rw [if_neg he]

/-- Full characterization of the edge map at the end of the accumulation
loop: the keys are the first-occurrence dedup of the concatenations
`parent + child` of the observations; each entry is keyed by the
concatenation of its own parent and child, carries the parent/child pair
of the FIRST observation whose concatenation equals the key, and counts
ALL observations whose concatenation equals the key. -/
theorem buildEdges_char (obs : List (String × String)) :
    ((buildEdges obs).map (fun en => en.1) =
      dedupF (obs.map (fun o => o.1 ++ o.2))) ∧
    (∀ en ∈ buildEdges obs,
      en.1 = en.2.parent ++ en.2.child ∧
      obs.find? (fun o => decide (o.1 ++ o.2 = en.1)) =
        some (en.2.parent, en.2.child) ∧
      en.2.callCount =
        (obs.filter (fun o => decide (o.1 ++ o.2 = en.1))).length) := by
  induction obs using List.reverseRecOn with
  | nil => exact ⟨rfl, by intro en hen; simp [buildEdges] at hen⟩
  | append_singleton obs o ih =>
    obtain ⟨ihkeys, ihent⟩ := ih
    rw [buildEdges_append]
    unfold edgeInsert
    simp only
    rw [List.map_append, List.map_cons, List.map_nil]
    by_cases hin : (buildEdges obs).any
        (fun en => decide (en.1 = o.1 ++ o.2)) = true
    · rw [if_pos hin]
      have hkeymem : (o.1 ++ o.2) ∈ obs.map (fun o => o.1 ++ o.2) := by
        rcases List.any_eq_true.mp hin with ⟨en, hen, heq⟩
        simp only [decide_eq_true_eq] at heq
        have hm : en.1 ∈ (buildEdges obs).map (fun en => en.1) :=
          List.mem_map.mpr ⟨en, hen, rfl⟩
        rw [ihkeys, mem_dedupF] at hm
        exact heq ▸ hm
      constructor
      · rw [map_fst_bump, ihkeys, dedupF_append_singleton, if_pos hkeymem]
      · intro en hen
        rcases List.mem_map.mp hen with ⟨en0, hen0, heq⟩
        obtain ⟨hk, hfind, hcount⟩ := ihent en0 hen0
        by_cases he : en0.1 = o.1 ++ o.2
        · rw [if_pos he] at heq
          subst heq
          refine ⟨by simpa using hk, ?_, ?_⟩
          · rw [List.find?_append]
            show Option.or (obs.find?
              (fun x => decide (x.1 ++ x.2 = en0.1))) _ = _
            rw [hfind]
            rfl
          · show en0.2.callCount + 1 =
              (List.filter (fun x => decide (x.1 ++ x.2 = en0.1))
                (obs ++ [o])).length
            rw [List.filter_append]
            have hfo : List.filter
                (fun x => decide (x.1 ++ x.2 = en0.1)) [o] = [o] := by
              simp [he.symm]
            rw [hfo, List.length_append, ← hcount]
            rfl
        · rw [if_neg he] at heq
          subst heq
          refine ⟨hk, ?_, ?_⟩
          · rw [List.find?_append, hfind]
            rfl
          · rw [List.filter_append]
            have hne2 : ¬ (o.1 ++ o.2 = en0.1) := fun hx => he hx.symm
            have hfo : List.filter
                (fun x => decide (x.1 ++ x.2 = en0.1)) [o] = [] := by
              simp [hne2]
            rw [hfo, List.append_nil]
            exact hcount
    · rw [if_neg hin]
      have hkeyout : (o.1 ++ o.2) ∉ obs.map (fun o => o.1 ++ o.2) := by
        intro hmem
        apply hin
        have hm : (o.1 ++ o.2) ∈ dedupF (obs.map (fun o => o.1 ++ o.2)) :=
          (mem_dedupF _ _).mpr hmem
        rw [← ihkeys] at hm
        rcases List.mem_map.mp hm with ⟨en, hen, heq⟩
        exact List.any_eq_true.mpr ⟨en, hen, by simp [heq]⟩
      constructor
      · rw [List.map_append, ihkeys, dedupF_append_singleton,
          if_neg hkeyout]
        rfl
      · intro en hen
        rcases List.mem_append.mp hen with hen0 | hen1
        · obtain ⟨hk, hfind, hcount⟩ := ihent en hen0
          have hne : en.1 ≠ o.1 ++ o.2 := by
            intro hx
            exact hin (List.any_eq_true.mpr ⟨en, hen0, by simp [hx]⟩)
          refine ⟨hk, ?_, ?_⟩
          · rw [List.find?_append, hfind]
            rfl
          · rw [List.filter_append]
            have hne2 : ¬ (o.1 ++ o.2 = en.1) := fun hx => hne hx.symm
            have hfo : List.filter
                (fun x => decide (x.1 ++ x.2 = en.1)) [o] = [] := by
              simp [hne2]
            rw [hfo, List.append_nil]
            exact hcount
        · have heq : en = (o.1 ++ o.2, (⟨o.1, o.2, 1⟩ : MDependencyLink)) := by
            simpa using hen1
          subst heq
          have hnone : obs.find?
              (fun x => decide (x.1 ++ x.2 = o.1 ++ o.2)) = none := by
            rw [List.find?_eq_none]
            intro x hx hxk
            simp only [decide_eq_true_eq] at hxk
            exact hkeyout (hxk ▸ List.mem_map.mpr ⟨x, hx, rfl⟩)
          have hfil : obs.filter
              (fun x => decide (x.1 ++ x.2 = o.1 ++ o.2)) = [] := by
            rw [List.filter_eq_nil_iff]
            intro x hx hxk
            simp only [decide_eq_true_eq] at hxk
            exact hkeyout (hxk ▸ List.mem_map.mpr ⟨x, hx, rfl⟩)
          refine ⟨rfl, ?_, ?_⟩
          · rw [List.find?_append, hnone]
            simp
          · rw [List.filter_append, hfil, List.nil_append]
            simp

/-- In a list whose keys are duplicate-free, two entries with the same key
are the same entry. -/
theorem eq_of_fst_eq_of_nodup_keys {α β : Type} :
    ∀ {l : List (α × β)}, (l.map (fun en => en.1)).Nodup →
      ∀ a ∈ l, ∀ b ∈ l, a.1 = b.1 → a = b
  | [], _, a, ha, _, _, _ => absurd ha (List.not_mem_nil a)
  | x :: l, h, a, ha, b, hb, hab => by
    rw [List.map_cons, List.nodup_cons] at h
    rcases List.mem_cons.mp ha with rfl | ha2
    · rcases List.mem_cons.mp hb with rfl | hb2
      · rfl
      · exact absurd (by rw [hab]; exact List.mem_map.mpr ⟨b, hb2, rfl⟩) h.1
    · rcases List.mem_cons.mp hb with rfl | hb2
      · exact absurd (by rw [← hab]; exact List.mem_map.mpr ⟨a, ha2, rfl⟩) h.1
      · exact eq_of_fst_eq_of_nodup_keys h.2 a ha2 b hb2 hab

/-- C4 (amended): in every dependency-graph result every edge has
parent ≠ child, and for every pair of services at most one edge exists;
but edges are keyed by the string CONCATENATION `parent + child`, so an
edge's parent/child pair is the first observed pair with that
concatenation, and its call count equals the number of observed child-of
references whose parent/child concatenation equals the edge's — distinct
pairs with equal concatenations merge into one edge, so the original
per-pair count claim fails (see the counterexample). -/
theorem C4_edge_invariants_amended (st : StoreResult) (endTs lookback : Int)
    (dls : List MDependencyLink)
    (h : getDependencies st endTs lookback = .ok dls) :
    (∀ e ∈ dls, e.parent ≠ e.child) ∧
    (∀ e1 ∈ dls, ∀ e2 ∈ dls, e1.parent = e2.parent → e1.child = e2.child →
      e1 = e2) ∧
    (∀ e ∈ dls,
      (obsOf st endTs lookback).find?
        (fun o => decide (o.1 ++ o.2 = e.parent ++ e.child)) =
        some (e.parent, e.child) ∧
      e.callCount = ((obsOf st endTs lookback).filter
        (fun o => decide (o.1 ++ o.2 = e.parent ++ e.child))).length) := by
  have hdls : dls = (buildEdges (obsOf st endTs lookback)).filterMap
      (fun e => if e.2.parent ≠ e.2.child then some e.2 else none) :=
    (Except.ok.inj h).symm
  obtain ⟨hkeys, hent⟩ := buildEdges_char (obsOf st endTs lookback)
  have hmem : ∀ e ∈ dls, e.parent ≠ e.child ∧
      ∃ en ∈ buildEdges (obsOf st endTs lookback), en.2 = e := by
    intro e he
    rw [hdls] at he
    rcases List.mem_filterMap.mp he with ⟨en, hen, hif⟩
    by_cases hpc : en.2.parent ≠ en.2.child
    · rw [if_pos hpc] at hif
      cases hif
      exact ⟨hpc, en, hen, rfl⟩
    · rw [if_neg hpc] at hif
      cases hif
  refine ⟨fun e he => (hmem e he).1, ?_, ?_⟩
  · intro e1 he1 e2 he2 hp hc
    rcases (hmem e1 he1).2 with ⟨en1, hen1, hq1⟩
    rcases (hmem e2 he2).2 with ⟨en2, hen2, hq2⟩
    have hk1 := (hent en1 hen1).1
    have hk2 := (hent en2 hen2).1
    have hkey : en1.1 = en2.1 := by
      rw [hk1, hk2, hq1, hq2, hp, hc]
    have hnd : ((buildEdges (obsOf st endTs lookback)).map
        (fun en => en.1)).Nodup := by
      rw [hkeys]
      exact dedupF_nodup _
    have := eq_of_fst_eq_of_nodup_keys hnd en1 hen1 en2 hen2 hkey
    rw [← hq1, ← hq2, this]
  · intro e he
    rcases (hmem e he).2 with ⟨en, hen, hq⟩
    obtain ⟨hk, hfind, hcount⟩ := hent en hen
    rw [hq] at hk
    constructor
    · rw [← hk]
      rw [hfind, hq]
    · rw [← hk, ← hcount, hq]

/-- C4 (counterexample): over `c4Store`, exactly one child-of reference
from a span of service "bc" to a parent of service "a" is observed, yet
the result is a single edge ("a", "bc") with call count 2, and the
observed pair ("ab", "c") has no edge at all: the pairs ("a","bc") and
("ab","c") concatenate to the same map key "abc" and merge. -/
theorem C4_counterexample :
    getDependencies (.ok c4Store) 10 20 =
      .ok [(⟨"a", "bc", 2⟩ : MDependencyLink)] ∧
    ((obsOf (.ok c4Store) 10 20).filter
      (fun o => decide (o = ("a", "bc")))).length = 1 ∧
    ((obsOf (.ok c4Store) 10 20).filter
      (fun o => decide (o = ("ab", "c")))).length = 1 :=
  ⟨rfl, rfl, rfl⟩

/-- C4 (witness): the amended invariants evaluated on `c4Store`. -/
theorem C4_witness :
    (∀ e ∈ [(⟨"a", "bc", 2⟩ : MDependencyLink)], e.parent ≠ e.child) ∧
    (∀ e1 ∈ [(⟨"a", "bc", 2⟩ : MDependencyLink)],
      ∀ e2 ∈ [(⟨"a", "bc", 2⟩ : MDependencyLink)],
      e1.parent = e2.parent → e1.child = e2.child → e1 = e2) ∧
    (∀ e ∈ [(⟨"a", "bc", 2⟩ : MDependencyLink)],
      (obsOf (.ok c4Store) 10 20).find?
        (fun o => decide (o.1 ++ o.2 = e.parent ++ e.child)) =
        some (e.parent, e.child) ∧
      e.callCount = ((obsOf (.ok c4Store) 10 20).filter
        (fun o => decide (o.1 ++ o.2 = e.parent ++ e.child))).length) :=
  C4_edge_invariants_amended (.ok c4Store) 10 20
    [(⟨"a", "bc", 2⟩ : MDependencyLink)] rfl

theorem traceIDFromString_one : traceIDFromString "1" = some ⟨0, 1⟩ := by
  decide

theorem microseconds_zero : microsecondsAsDuration (toUint64 0) = 0 := by
  decide

theorem decode_chainDoc (svc : Nat → String) (sid : Nat → Nat) (i : Nat)
    (hi : sid i < 2 ^ 64) (hprev : i ≠ 0 → sid (i - 1) < 2 ^ 64) :
    decodeSpanDoc (chainDoc svc sid i) = some (chainSpan svc sid i) := by
  unfold decodeSpanDoc chainDoc chainSpan
  simp only
  rw [traceIDFromString_one]
  simp only [Option.some_bind]
  rw [spanIDFromString_toString hi]
  simp only [Option.some_bind]
  by_cases h0 : i = 0
  · subst h0
    rw [if_pos rfl, if_pos rfl]
    show some _ = some _
    rw [Option.some_inj]
    rw [microseconds_zero]
  · rw [if_neg h0, if_neg h0]
    have hrefs : convertRefsR
        [⟨"CHILD_OF", "1", spanIDToString (sid (i - 1))⟩] =
        some [⟨0, ⟨0, 1⟩, sid (i - 1)⟩] := by
      simp [convertRefsR, convertRefR, refTypeR, traceIDFromString_one,
        spanIDFromString_toString (hprev h0)]
    rw [hrefs]
    simp only [Option.some_bind]
    show some _ = some _
    rw [Option.some_inj]
    rw [microseconds_zero]

theorem collectIds_seen_const (limit : Int) (hl : 2 ≤ limit) (t : String) :
    ∀ docs : List SpanDoc, (∀ d ∈ docs, d.traceID = t) →
      collectIds limit docs [t] = [t]
  | [], _ => rfl
  | d :: ds, h => by
    show (let seen2 := insertIfNew [t] d.traceID
      if limit ≤ (seen2.length : Int) then seen2
      else collectIds limit ds seen2) = [t]
    have ht : insertIfNew [t] d.traceID = [t] := by
      unfold insertIfNew
      rw [if_pos (by rw [h d (List.mem_cons_self d ds)]; exact
        List.mem_singleton.mpr rfl)]
    simp only [ht]
    rw [if_neg (by simp only [List.length_singleton]; omega)]
    exact collectIds_seen_const limit hl t ds
      (fun x hx => h x (List.mem_cons_of_mem d hx))

theorem collectIds_const (limit : Int) (hl : 2 ≤ limit) (t : String) :
    ∀ docs : List SpanDoc, (∀ d ∈ docs, d.traceID = t) → docs ≠ [] →
      collectIds limit docs [] = [t]
  | [], _, hne => absurd rfl hne
  | d :: ds, h, _ => by
    show (let seen2 := insertIfNew [] d.traceID
      if limit ≤ (seen2.length : Int) then seen2
      else collectIds limit ds seen2) = [t]
    have ht : insertIfNew [] d.traceID = [t] := by
      unfold insertIfNew
      rw [if_neg (List.not_mem_nil d.traceID), List.nil_append,
        h d (List.mem_cons_self d ds)]
    simp only [ht]
    rw [if_neg (by simp only [List.length_singleton]; omega)]
    exact collectIds_seen_const limit hl t ds
      (fun x hx => h x (List.mem_cons_of_mem d hx))

theorem foldl_insertIfNew_const (t : String) :
    ∀ l : List String, (∀ x ∈ l, x = t) →
      List.foldl insertIfNew [t] l = [t]
  | [], _ => rfl
  | x :: l, h => by
    rw [List.foldl_cons]
    have hx : insertIfNew [t] x = [t] := by
      unfold insertIfNew
      rw [if_pos (by rw [h x (List.mem_cons_self x l)]; exact
        List.mem_singleton.mpr rfl)]
    rw [hx]
    exact foldl_insertIfNew_const t l
      (fun y hy => h y (List.mem_cons_of_mem x hy))

theorem dedupF_const (t : String) :
    ∀ l : List String, (∀ x ∈ l, x = t) → l ≠ [] → dedupF l = [t]
  | [], _, hne => absurd rfl hne
  | x :: l, h, _ => by
    unfold dedupF
    rw [List.foldl_cons]
    have hx : insertIfNew [] x = [t] := by
      unfold insertIfNew
      rw [if_neg (List.not_mem_nil x), List.nil_append,
        h x (List.mem_cons_self x l)]
    rw [hx]
    exact foldl_insertIfNew_const t l
      (fun y hy => h y (List.mem_cons_of_mem x hy))

theorem filterMap_eq_map_of_some {α β : Type} (f : α → Option β)
    (h : α → β) :
    ∀ l : List α, (∀ x ∈ l, f x = some (h x)) → l.filterMap f = l.map h
  | [], _ => rfl
  | x :: l, hl => by
    rw [List.filterMap_cons, hl x (List.mem_cons_self x l), List.map_cons,
      filterMap_eq_map_of_some f h l
        (fun y hy => hl y (List.mem_cons_of_mem x hy))]

theorem svcMapInsert_fresh {m : List (Nat × String)} {k : Nat} {v : String}
    (h : ∀ e ∈ m, e.1 ≠ k) : svcMapInsert m k v = m ++ [(k, v)] := by
  unfold svcMapInsert
  rw [if_neg (by
    rw [List.any_eq_true]
    rintro ⟨e, he, hek⟩
    simp only [decide_eq_true_eq] at hek
    exact h e he hek)]

theorem lookupSvc_eq_of_mem :
    ∀ {m : List (Nat × String)}, (m.map (fun e => e.1)).Nodup →
      ∀ {k : Nat} {v : String}, (k, v) ∈ m → lookupSvc m k = v
  | [], _, k, v, hm => absurd hm (List.not_mem_nil (k, v))
  | e :: m, hnd, k, v, hm => by
    rw [List.map_cons, List.nodup_cons] at hnd
    unfold lookupSvc
    rcases List.mem_cons.mp hm with rfl | hm2
    · rw [List.find?_cons_of_pos _ (by simp)]
    · by_cases hek : e.1 = k
      · exact absurd (hek ▸ List.mem_map.mpr ⟨(k, v), hm2, rfl⟩) hnd.1
      · rw [List.find?_cons_of_neg _ (by simpa using hek)]
        exact lookupSvc_eq_of_mem hnd.2 hm2

theorem foldl_svcMapInsert_range (svc : Nat → String) (sid : Nat → Nat) :
    ∀ n : Nat, (∀ i, i < n → ∀ j, j < n → sid i = sid j → i = j) →
      List.foldl (fun m s => svcMapInsert m s.spanID s.process.serviceName)
        [] ((List.range n).map (chainSpan svc sid)) =
        (List.range n).map (fun i => (sid i, svc i))
  | 0, _ => rfl
  | n + 1, hinj => by
    rw [List.range_succ, List.map_append, List.map_append, List.map_cons,
      List.map_nil, List.map_cons, List.map_nil, List.foldl_append,
      List.foldl_cons, List.foldl_nil]
    rw [foldl_svcMapInsert_range svc sid n
      (fun i hi j hj => hinj i (by omega) j (by omega))]
    show svcMapInsert _ (sid n) (svc n) = _
    rw [svcMapInsert_fresh (by
      intro e he
      rcases List.mem_map.mp he with ⟨i, hi, rfl⟩
      have hilt := List.mem_range.mp hi
      intro hk
      have := hinj i (by omega) n (by omega) hk
      omega)]

theorem flatMap_range_chain {α : Type} (g : Nat → α) :
    ∀ n : Nat, (List.range n).flatMap
        (fun i => if i = 0 then [] else [g i]) =
      (List.range (n - 1)).map (fun j => g (j + 1))
  | 0 => rfl
  | 1 => rfl
  | n + 2 => by
    rw [List.range_succ, List.flatMap_append, flatMap_range_chain g (n + 1)]
    have hsing : ([n + 1] : List Nat).flatMap
        (fun i => if i = 0 then [] else [g i]) = [g (n + 1)] := by
      show (if n + 1 = 0 then [] else [g (n + 1)]) ++ [] = [g (n + 1)]
      rw [if_neg (by omega), List.append_nil]
    rw [hsing]
    have h1 : n + 1 - 1 = n := by omega
    have h2 : n + 2 - 1 = n + 1 := by omega
    rw [h1, h2, List.range_succ, List.map_append, List.map_cons,
      List.map_nil]

theorem buildEdges_distinct_keys :
    ∀ obs : List (String × String),
      (obs.map (fun o => o.1 ++ o.2)).Nodup →
      buildEdges obs = obs.map
        (fun o => (o.1 ++ o.2, (⟨o.1, o.2, 1⟩ : MDependencyLink))) := by
  intro obs
  induction obs using List.reverseRecOn with
  | nil => intro _; rfl
  | append_singleton obs o ih =>
    intro hnd
    rw [List.map_append, List.map_cons, List.map_nil] at hnd
    have hnd0 : (obs.map (fun o => o.1 ++ o.2)).Nodup :=
      (List.nodup_append.mp hnd).1
    have hout : (o.1 ++ o.2) ∉ obs.map (fun o => o.1 ++ o.2) := by
      intro hmem
      rcases List.nodup_append.mp hnd with ⟨_, _, hdisj⟩
      exact hdisj hmem (List.mem_singleton.mpr rfl)
    rw [buildEdges_append, ih hnd0]
    unfold edgeInsert
    simp only
    rw [if_neg (by
      rw [List.any_eq_true]
      rintro ⟨en, hen, hek⟩
      rcases List.mem_map.mp hen with ⟨o2, ho2, rfl⟩
      simp only [decide_eq_true_eq] at hek
      exact hout (hek ▸ List.mem_map.mpr ⟨o2, ho2, rfl⟩))]
    rw [List.map_append, List.map_cons, List.map_nil]

/-- C2: for a stored linear chain of `n ≥ 2` spans in one trace — span `i`
referencing span `i - 1` by a child-of reference, span `i` in service
`svc i` — with non-empty pairwise-distinct service names, distinct span
ids, and (the amendment) pairwise-distinct `parent ++ child` string
concatenations for consecutive service pairs, `GetDependencies` over a
window covering all spans returns exactly the `n - 1` consecutive edges
`svc j → svc (j + 1)`, each with call count 1; in particular every returned
edge between two chain services joins consecutive ones (no transitive
edge), and none has a call count other than 1.  (Without the concatenation
hypothesis the result can differ — see the counterexample.) -/
theorem C2_chain_dependency_amended (n : Nat) (svc : Nat → String)
    (sid : Nat → Nat) (hn : 2 ≤ n)
    (hsvc_ne : ∀ i, i < n → svc i ≠ "")
    (hsvc_inj : ∀ i, i < n → ∀ j, j < n → svc i = svc j → i = j)
    (hkey : ∀ i, i < n - 1 → ∀ j, j < n - 1 →
      svc i ++ svc (i + 1) = svc j ++ svc (j + 1) → i = j)
    (hsid_lt : ∀ i, i < n → sid i < 2 ^ 64)
    (hsid_inj : ∀ i, i < n → ∀ j, j < n → sid i = sid j → i = j) :
    getDependencies (.ok (chainStore n svc sid)) (n : Int) ((n : Int) + 1) =
      .ok ((List.range (n - 1)).map fun j =>
        (⟨svc j, svc (j + 1), 1⟩ : MDependencyLink)) ∧
    (∀ links, getDependencies (.ok (chainStore n svc sid)) (n : Int)
        ((n : Int) + 1) = .ok links →
      ∀ i, i < n → ∀ j, j < n → ∀ c,
        (⟨svc i, svc j, c⟩ : MDependencyLink) ∈ links →
        j = i + 1 ∧ c = 1) := by
  have hmatch : ∀ d ∈ chainStore n svc sid,
      matchesFilter (buildTraceIDFilter
        (depQuery (n : Int) ((n : Int) + 1))) d = true := by
    intro d hd
    unfold chainStore at hd
    rcases List.mem_map.mp hd with ⟨i, hi, rfl⟩
    have hilt := List.mem_range.mp hi
    simp [matchesFilter, buildTraceIDFilter, depQuery, buildDurationFilter,
      durationHolds, chainDoc]
    omega
  have hfilter : (chainStore n svc sid).filter
      (matchesFilter (buildTraceIDFilter
        (depQuery (n : Int) ((n : Int) + 1)))) = chainStore n svc sid :=
    List.filter_eq_self.mpr hmatch
  have hids_all : ∀ d ∈ sortByStartTimeDesc (chainStore n svc sid),
      d.traceID = "1" := by
    intro d hd
    have hd2 : d ∈ chainStore n svc sid :=
      (sortByStartTimeDesc_perm (chainStore n svc sid)).mem_iff.mp hd
    unfold chainStore at hd2
    rcases List.mem_map.mp hd2 with ⟨i, hi, rfl⟩
    rfl
  have hne : sortByStartTimeDesc (chainStore n svc sid) ≠ [] := by
    apply List.ne_nil_of_length_pos
    rw [(sortByStartTimeDesc_perm (chainStore n svc sid)).length_eq]
    simp only [chainStore, List.length_map, List.length_range]
    omega
  have hfind_ids : findTraceIDs (.ok (chainStore n svc sid))
      (depQuery (n : Int) ((n : Int) + 1)) = .ok ["1"] := by
    show Except.ok (collectIds maxTracesForDependencies
      (sortByStartTimeDesc ((chainStore n svc sid).filter
        (matchesFilter (buildTraceIDFilter
          (depQuery (n : Int) ((n : Int) + 1)))))) []) = _
    rw [hfilter]
    rw [collectIds_const _ (by decide) "1" _ hids_all hne]
  have hin_filter : (chainStore n svc sid).filter
      (fun d => decide (d.traceID ∈ (["1"] : List String))) =
      chainStore n svc sid := by
    apply List.filter_eq_self.mpr
    intro d hd
    unfold chainStore at hd
    rcases List.mem_map.mp hd with ⟨i, hi, rfl⟩
    rfl
  have hdecode_all : ∀ d ∈ chainStore n svc sid,
      (decodeSpanDoc d).isSome := by
    intro d hd
    unfold chainStore at hd
    rcases List.mem_map.mp hd with ⟨i, hi, rfl⟩
    have hilt := List.mem_range.mp hi
    rw [decode_chainDoc svc sid i (hsid_lt i hilt)
      (fun _ => hsid_lt (i - 1) (by omega))]
    rfl
  have hfetch : fetchTracesById (.ok (chainStore n svc sid)) ["1"] =
      .ok (groupSpec (chainStore n svc sid)) := by
    show fetchLoop ((chainStore n svc sid).filter
      (fun d => decide (d.traceID ∈ (["1"] : List String)))) [] = _
    rw [hin_filter, fetchLoop_ok _ _ hdecode_all,
      foldl_appendDecoded_groupSpec _ hdecode_all]
  have hcount : ((chainStore n svc sid).map fun d => d.traceID) ≠ [] := by
    apply List.ne_nil_of_length_pos
    simp only [chainStore, List.length_map, List.length_range]
    omega
  have hids_all2 : ∀ x ∈ (chainStore n svc sid).map fun d => d.traceID,
      x = "1" := by
    intro x hx
    rcases List.mem_map.mp hx with ⟨d, hd, rfl⟩
    unfold chainStore at hd
    rcases List.mem_map.mp hd with ⟨i, hi, rfl⟩
    rfl
  have hfil1 : (chainStore n svc sid).filter
      (fun d => decide (d.traceID = "1")) = chainStore n svc sid := by
    apply List.filter_eq_self.mpr
    intro d hd
    unfold chainStore at hd
    rcases List.mem_map.mp hd with ⟨i, hi, rfl⟩
    rfl
  have hdec_map : ∀ i ∈ List.range n,
      decodeSpanDoc (chainDoc svc sid i) = some (chainSpan svc sid i) := by
    intro i hi
    have hilt := List.mem_range.mp hi
    exact decode_chainDoc svc sid i (hsid_lt i hilt)
      (fun _ => hsid_lt (i - 1) (by omega))
  have hgroup : groupSpec (chainStore n svc sid) =
      [("1", (List.range n).map (chainSpan svc sid))] := by
    unfold groupSpec
    rw [dedupF_const "1" _ hids_all2 hcount]
    rw [List.map_cons, List.map_nil]
    show [("1", ((chainStore n svc sid).filter
      (fun d => decide (d.traceID = "1"))).filterMap decodeSpanDoc)] = _
    rw [hfil1]
    show [("1", ((List.range n).map
      (chainDoc svc sid)).filterMap decodeSpanDoc)] = _
    rw [List.filterMap_map]
    rw [filterMap_eq_map_of_some (decodeSpanDoc ∘ chainDoc svc sid)
      (chainSpan svc sid) _ hdec_map]
  have htraces : findTraces (.ok (chainStore n svc sid))
      (depQuery (n : Int) ((n : Int) + 1)) =
      .ok [(List.range n).map (chainSpan svc sid)] := by
    unfold findTraces
    rw [hfind_ids]
    show (if (["1"] : List String).isEmpty then
        (.ok [] : Except String (List (List MSpan)))
      else match fetchTracesById (.ok (chainStore n svc sid)) ["1"] with
        | .error e => .error e
        | .ok m => .ok (m.map fun e => e.2)) = _
    rw [if_neg (by decide)]
    rw [hfetch]
    show Except.ok ((groupSpec (chainStore n svc sid)).map fun e => e.2) = _
    rw [hgroup]
    rfl
  have htfd : tracesForDependencies (.ok (chainStore n svc sid))
      (n : Int) ((n : Int) + 1) =
      [(List.range n).map (chainSpan svc sid)] := by
    unfold tracesForDependencies
    rw [htraces]
  have hsvcmap : buildSvcMap [(List.range n).map (chainSpan svc sid)] =
      (List.range n).map (fun i => (sid i, svc i)) := by
    unfold buildSvcMap
    rw [List.foldl_cons, List.foldl_nil]
    exact foldl_svcMapInsert_range svc sid n hsid_inj
  have hlookup : ∀ k, k < n →
      lookupSvc ((List.range n).map (fun i => (sid i, svc i))) (sid k) =
        svc k := by
    intro k hk
    apply lookupSvc_eq_of_mem
    · rw [List.map_map]
      exact List.Nodup.map_on
        (fun i hi j hj h => hsid_inj i (List.mem_range.mp hi)
          j (List.mem_range.mp hj) h)
        (List.nodup_range n)
    · exact List.mem_map.mpr ⟨k, List.mem_range.mpr hk, rfl⟩
  have hpt : ∀ i ∈ List.range n,
      ((chainSpan svc sid i).references.filterMap fun r =>
        if r.refType = 0 ∧
            lookupSvc ((List.range n).map (fun i => (sid i, svc i)))
              r.spanID ≠ "" then
          some (lookupSvc ((List.range n).map (fun i => (sid i, svc i)))
            r.spanID, (chainSpan svc sid i).process.serviceName)
        else none) =
      (if i = 0 then ([] : List (String × String))
       else [(svc (i - 1), svc i)]) := by
    intro i hi
    have hilt := List.mem_range.mp hi
    by_cases h0 : i = 0
    · subst h0
      rw [if_pos rfl]
      rfl
    · rw [if_neg h0]
      have hrefs : (chainSpan svc sid i).references =
          [⟨0, ⟨0, 1⟩, sid (i - 1)⟩] := by
        show (if i = 0 then [] else
          [(⟨0, ⟨0, 1⟩, sid (i - 1)⟩ : MSpanRef)]) = _
        rw [if_neg h0]
      have hl : lookupSvc ((List.range n).map (fun i => (sid i, svc i)))
          (sid (i - 1)) = svc (i - 1) := hlookup (i - 1) (by omega)
      have hf : (if (⟨0, ⟨0, 1⟩, sid (i - 1)⟩ : MSpanRef).refType = 0 ∧
            lookupSvc ((List.range n).map (fun i => (sid i, svc i)))
              (⟨0, ⟨0, 1⟩, sid (i - 1)⟩ : MSpanRef).spanID ≠ "" then
          some (lookupSvc ((List.range n).map (fun i => (sid i, svc i)))
            (⟨0, ⟨0, 1⟩, sid (i - 1)⟩ : MSpanRef).spanID,
            (chainSpan svc sid i).process.serviceName)
        else none) = some (svc (i - 1), svc i) := by
        show (if (0 : Int) = 0 ∧
            lookupSvc ((List.range n).map (fun i => (sid i, svc i)))
              (sid (i - 1)) ≠ "" then
          some (lookupSvc ((List.range n).map (fun i => (sid i, svc i)))
            (sid (i - 1)), svc i) else none) = some (svc (i - 1), svc i)
        rw [hl, if_pos ⟨rfl, hsvc_ne (i - 1) (by omega)⟩]
      rw [hrefs, List.filterMap_cons, hf]
      rfl
  have hobs : childOfObservations
      ((List.range n).map (fun i => (sid i, svc i)))
      [(List.range n).map (chainSpan svc sid)] =
      (List.range (n - 1)).map (fun j => (svc j, svc (j + 1))) := by
    have h2 : childOfObservations
        ((List.range n).map (fun i => (sid i, svc i)))
        [(List.range n).map (chainSpan svc sid)] =
        List.flatten ((List.range n).map fun i =>
          ((chainSpan svc sid i).references.filterMap fun r =>
            if r.refType = 0 ∧
                lookupSvc ((List.range n).map (fun i => (sid i, svc i)))
                  r.spanID ≠ "" then
              some (lookupSvc ((List.range n).map
                (fun i => (sid i, svc i))) r.spanID,
                (chainSpan svc sid i).process.serviceName)
            else none)) := by
      unfold childOfObservations
      rw [List.flatMap_cons, List.flatMap_nil, List.append_nil,
        List.flatMap_def, List.map_map]
      rfl
    rw [h2, List.map_congr_left hpt, ← List.flatMap_def]
    have h1 := flatMap_range_chain
      (fun i => ((svc (i - 1), svc i) : String × String)) n
    simp only [Nat.add_sub_cancel] at h1
    exact h1
  have hkeys_nodup : ((((List.range (n - 1)).map
      (fun j => (svc j, svc (j + 1)))).map
        (fun o => o.1 ++ o.2))).Nodup := by
    rw [List.map_map]
    exact List.Nodup.map_on
      (fun i hi j hj h => hkey i (List.mem_range.mp hi)
        j (List.mem_range.mp hj) h)
      (List.nodup_range (n - 1))
  have hedges := buildEdges_distinct_keys
    ((List.range (n - 1)).map (fun j => (svc j, svc (j + 1)))) hkeys_nodup
  have hA : ∀ e ∈ (((List.range (n - 1)).map
      fun j => (svc j, svc (j + 1))).map
        fun o => (o.1 ++ o.2, (⟨o.1, o.2, 1⟩ : MDependencyLink))),
      (if e.2.parent ≠ e.2.child then some e.2 else none) = some e.2 := by
    intro e he
    rcases List.mem_map.mp he with ⟨o, ho, rfl⟩
    rcases List.mem_map.mp ho with ⟨k, hk, rfl⟩
    have hklt := List.mem_range.mp hk
    exact if_pos (fun hc => by
      have := hsvc_inj k (by omega) (k + 1) (by omega) hc
      omega)
  have hmain : getDependencies (.ok (chainStore n svc sid))
      (n : Int) ((n : Int) + 1) =
      .ok ((List.range (n - 1)).map fun j =>
        (⟨svc j, svc (j + 1), 1⟩ : MDependencyLink)) := by
    show Except.ok ((buildEdges (childOfObservations
        (buildSvcMap (tracesForDependencies (.ok (chainStore n svc sid))
          (n : Int) ((n : Int) + 1)))
        (tracesForDependencies (.ok (chainStore n svc sid))
          (n : Int) ((n : Int) + 1)))).filterMap fun e =>
        if e.2.parent ≠ e.2.child then some e.2 else none) = _
    rw [htfd, hsvcmap, hobs, hedges]
    rw [filterMap_eq_map_of_some
      (fun e : String × MDependencyLink =>
        if e.2.parent ≠ e.2.child then some e.2 else none)
      (fun e : String × MDependencyLink => e.2) _ hA]
    rw [List.map_map, List.map_map]
    rfl
  refine ⟨hmain, ?_⟩
  intro links hlinks i hi j hj c hmem
  rw [hmain] at hlinks
  have hl2 : ((List.range (n - 1)).map fun j =>
      (⟨svc j, svc (j + 1), 1⟩ : MDependencyLink)) = links :=
    Except.ok.inj hlinks
  rw [← hl2] at hmem
  rcases List.mem_map.mp hmem with ⟨k, hk, heq⟩
  have hklt := List.mem_range.mp hk
  have h1 : svc k = svc i ∧ svc (k + 1) = svc j ∧ 1 = c := by
    simpa only [MDependencyLink.mk.injEq] using heq
  have hki : k = i := hsvc_inj k (by omega) i hi h1.1
  have hkj : k + 1 = j := hsvc_inj (k + 1) (by omega) j hj h1.2.1
  exact ⟨by omega, h1.2.2.symm⟩

/-- C2 counterexample: a linear chain of 4 spans across the pairwise
distinct services `a`, `bc`, `ab`, `c` yields only 2 edges — not `n - 1 =
3` — and the first edge carries call count 2, because the edge-map keys
`"a" ++ "bc"` and `"ab" ++ "c"` collide on the string `"abc"`. -/
theorem C2_counterexample :
    getDependencies (.ok (chainStore 4 c2svc (fun i => i))) 4 5 =
      .ok [⟨"a", "bc", 2⟩, ⟨"bc", "ab", 1⟩] ∧
    (List.map c2svc (List.range 4)).Nodup ∧
    ([(⟨"a", "bc", 2⟩ : MDependencyLink), ⟨"bc", "ab", 1⟩]).length ≠ 4 - 1 ∧
    (([(⟨"a", "bc", 2⟩ : MDependencyLink), ⟨"bc", "ab", 1⟩]).all
      fun dl => dl.callCount == 1) = false :=
  ⟨rfl, by decide, by decide, by decide⟩

/-- Witness for C2 at a 3-span chain over services `a`, `aa`, `aaa`. -/
theorem C2_witness :
    getDependencies (.ok (chainStore 3 c2svcW (fun i => i)))
      (3 : Int) ((3 : Int) + 1) =
      .ok ((List.range (3 - 1)).map fun j =>
        (⟨c2svcW j, c2svcW (j + 1), 1⟩ : MDependencyLink)) :=
  (C2_chain_dependency_amended 3 c2svcW (fun i => i) (by decide) (by decide)
    (by decide) (by decide) (by decide) (by decide)).1

end JaegerMongo
